import Mathlib

/-!
Verification of the reconciliation engine of the CRM dashboard repository.

The definitions below are a shallow embedding of the TypeScript sync
handlers (`src/app/api/sync/all/handlers/trials.ts`, the guests handler,
`src/app/api/sync/all/route.ts`) and of the shared platform utilities
(`mapMembershipType`, `getCountryFromCity`, `getCityFromHomeClubId`).
The persistent store (tables `trial_bookings`, `conversions`, `guests`)
is modelled as lists of records; the external platform responses
(`getAllMembersWithContracts`, `getAllMemberProducts`,
`getPerfectGymConfig`) are modelled as an environment the handlers read.
JavaScript truthiness on nullable strings (null and the empty string are
falsy) is modelled explicitly.
-/

set_option autoImplicit false

namespace Crm

/-- JS string truthiness of a nullable string: `null`, `undefined` and `""` are falsy. -/
def strTruthy : Option String → Bool
  | none => false
  | some s => !s.isEmpty

/-- JS `x || null`: keep a truthy string, otherwise `null`. -/
def truthyOrNone (x : Option String) : Option String :=
  if strTruthy x then x else none

/-- JS `a || b` on nullable strings. -/
def jsOrStr (a b : Option String) : Option String :=
  if strTruthy a then a else b

/-- JS `x || d` producing a plain string default. -/
def orStr (x : Option String) (d : String) : String :=
  match x with
  | some s => if s.isEmpty then d else s
  | none => d

/-- ASCII lower-casing of one character. -/
def asciiLower (c : Char) : Char :=
  if 65 ≤ c.toNat && c.toNat ≤ 90 then Char.ofNat (c.toNat + 32) else c

/-- `s.toLowerCase()` (ASCII case folding, as used by the city tables). -/
def strToLower (s : String) : String :=
  ⟨s.data.map asciiLower⟩

/-- ASCII whitespace, the characters relevant to `trim` here. -/
def isWsp (c : Char) : Bool :=
  c == ' ' || c == '\t' || c == '\n' || c == '\r'

def dropWsp : List Char → List Char
  | [] => []
  | c :: t => if isWsp c then dropWsp t else c :: t

/-- `s.trim()`. -/
def strTrim (s : String) : String :=
  ⟨(dropWsp (dropWsp s.data.reverse).reverse)⟩

/-- Infix test on character lists, the model of JS `String.prototype.includes`. -/
def charsInfix (needle : List Char) : List Char → Bool
  | [] => needle.isEmpty
  | c :: t => needle.isPrefixOf (c :: t) || charsInfix needle t

/-- JS `s.includes(pat)`. -/
def strContainsSub (s pat : String) : Bool :=
  charsInfix pat.data s.data

/-- JS `<` on strings: lexicographic comparison by code unit. -/
def charsLt : List Char → List Char → Bool
  | _, [] => false
  | [], _ :: _ => true
  | a :: as, b :: bs =>
    if a.toNat < b.toNat then true
    else if b.toNat < a.toNat then false
    else charsLt as bs

def strLtB (a b : String) : Bool :=
  charsLt a.data b.data

/-- JS `Map` over string keys as an association list; `set` overwrites in place,
so iteration order is key-insertion order, as in the source. -/
def mapGet {β : Type} (m : List (String × β)) (k : String) : Option β :=
  match m with
  | [] => none
  | (k', v) :: t => if k' == k then some v else mapGet t k

def mapSet {β : Type} (m : List (String × β)) (k : String) (v : β) : List (String × β) :=
  match m with
  | [] => [(k, v)]
  | (k', v') :: t => if k' == k then (k, v) :: t else (k', v') :: mapSet t k v

/-- `map.get(k)!.push(x)` pattern used when grouping trials by country. -/
def mapPush {α : Type} (m : List (String × List α)) (k : String) (x : α) : List (String × List α) :=
  match m with
  | [] => [(k, [x])]
  | (k', xs) :: t => if k' == k then (k', xs ++ [x]) :: t else (k', xs) :: mapPush t k x

/-- Lookup in a `Record<number, string>` table. -/
def natMapGet (m : List (Nat × String)) (k : Nat) : Option String :=
  match m with
  | [] => none
  | (k', v) :: t => if k' == k then some v else natMapGet t k

/-! ## Platform utilities (`src/lib/perfectgym-utils.ts`, `src/unnamed/part_011`) -/

/-- `mapMembershipType` from the platform utilities: keyword sniffing on the
plan name, defaulting to `"flex"`. -/
def mapMembershipType (paymentPlanName : String) : String :=
  let name := strToLower paymentPlanName
  if strContainsSub name "loyalty" then "loyalty"
  else if strContainsSub name "flex" then "flex"
  else "flex"

/-- The `cityToCountry` lookup table. -/
def cityToCountry : List (String × String) :=
  [("amsterdam", "NL"), ("antwerp", "NL"), ("antwerpen", "NL"), ("rotterdam", "NL"),
   ("berlin", "DE"), ("cologne", "DE"), ("munich", "DE"),
   ("basel", "CH"), ("zurich", "CH"), ("vienna", "AT")]

/-- `getCountryFromCity`: normalizes the label and looks the city up; unknown
labels yield `none` (`null` in the source), never an exception. -/
def getCountryFromCity (city : String) : Option String :=
  mapGet cityToCountry (strTrim (strToLower city))

/-- The per-country `homeClubIdToCity` table. -/
def homeClubIdToCity : List (String × List (Nat × String)) :=
  [("NL", [(1, "amsterdam"), (5, "rotterdam"), (6, "antwerpen")]),
   ("DE", [(1, "berlin"), (5, "cologne"), (6, "munich")]),
   ("CH", [(1, "zurich"), (4, "basel")]),
   ("AT", [(1, "vienna")])]

/-- `getCityFromHomeClubId`: a falsy (`0`/missing) club id or an unknown
country or id yields `none`. -/
def getCityFromHomeClubId (country : String) (homeClubId : Option Nat) : Option String :=
  match homeClubId with
  | none => none
  | some h =>
    if h == 0 then none
    else
      match mapGet homeClubIdToCity country with
      | none => none
      | some tbl => natMapGet tbl h

/-- `countryParamMap` of the guests handler. -/
def countryParamMap : List (String × String) :=
  [("nl", "NL"), ("de", "DE"), ("ch", "CH"), ("at", "AT")]

/-! ## Data model (store rows, `src/lib/db/schema.ts`) -/

/-- A `trial_bookings` row, restricted to the columns the sync handlers read.
`city` is NOT NULL in the schema; `member_id` is nullable. -/
structure Trial where
  memberId : Option String
  city : String
  deriving DecidableEq, Repr

/-- A `conversions` row. `city` and `source` are nullable. -/
structure Conversion where
  id : Nat
  memberId : String
  city : Option String
  memberSince : String
  membershipType : String
  source : Option String
  hadCourseStep : Bool
  deriving DecidableEq, Repr

/-- A `guests` row, restricted to the columns the handlers touch. -/
structure Guest where
  memberId : String
  creditsLeft : Int
  city : Option String
  startDate : Option String
  packageSize : Int
  convertedAt : Option String
  updatedAt : String
  deriving DecidableEq, Repr

/-- The persistent store; `nextConvId` models the `serial` primary key of
`conversions`. -/
structure Store where
  trials : List Trial
  conversions : List Conversion
  guests : List Guest
  nextConvId : Nat
  deriving DecidableEq, Repr

/-! ## External platform facts (the adapter's parsed responses) -/

/-- One contract as returned by `getAllMembersWithContracts` (newest first). -/
structure Contract where
  startDate : Option String
  paymentPlanName : Option String
  deriving DecidableEq, Repr

/-- One member with contracts. -/
structure Member where
  id : Nat
  contracts : List Contract
  deriving DecidableEq, Repr

/-- One member product as returned by `getAllMemberProducts`;
`homeClubId` models `product.Member?.homeClubId`. -/
structure Product where
  memberId : Nat
  initialQuantity : Int
  currentQuantity : Int
  purchaseDate : Option String
  homeClubId : Option Nat
  deriving DecidableEq, Repr

/-- The environment a sync run reads: per-country bulk query results,
credential availability, and the ambient clock / date library. -/
structure Env where
  members : String → List Member
  products : String → List Product
  hasConfig : String → Bool
  now : String
  dateTime : String → Int
  isoOf : String → String

/-- Value stored in `membersMap`. -/
structure ContractData where
  startDate : String
  membershipType : String
  deriving DecidableEq, Repr

/-- Value stored in the trial handler's `purchasesMap`. -/
structure PurchaseData where
  purchaseDate : String
  productName : String
  deriving DecidableEq, Repr

/-- `membersMap` construction, shared verbatim by both handlers: newest
contract per member, keyed by `String(member.id)`, requiring a truthy
`startDate`. -/
def buildMembersMap (ms : List Member) : List (String × ContractData) :=
  ms.foldl
    (fun acc member =>
      match member.contracts.head? with
      | none => acc
      | some c =>
        if strTruthy c.startDate then
          mapSet acc (toString member.id)
            { startDate := c.startDate.getD ""
              membershipType := mapMembershipType (orStr c.paymentPlanName "") }
        else acc)
    []

/-- The trial handler's `purchasesMap`: newest qualifying (quantity 10/16)
course-package purchase per member, compared with JS string `<`. -/
def buildPurchasesMap (ps : List Product) (now : String) : List (String × PurchaseData) :=
  ps.foldl
    (fun acc p =>
      let memberId := toString p.memberId
      if p.initialQuantity == (10 : Int) || p.initialQuantity == (16 : Int) then
        match mapGet acc memberId with
        | none =>
          mapSet acc memberId
            { purchaseDate := orStr p.purchaseDate now, productName := "Beginners Package" }
        | some e =>
          if strTruthy p.purchaseDate && strLtB e.purchaseDate (p.purchaseDate.getD "") then
            mapSet acc memberId
              { purchaseDate := orStr p.purchaseDate now, productName := "Beginners Package" }
          else acc
      else acc)
    []

/-! ## Trial sync (`src/app/api/sync/all/handlers/trials.ts`) -/

/-- `` `${memberId}:${city}` `` identity key string. -/
def keyOf (memberId city : String) : String :=
  memberId ++ ":" ++ city

/-- The `existingMemberCitySet`: keys of all conversions whose `memberId`
and `city` are both truthy. Note: conversions of every `membershipType`
contribute, `course` records included. -/
def existingKeys (convs : List Conversion) : List String :=
  (convs.filter (fun c => !c.memberId.isEmpty && strTruthy c.city)).map
    (fun c => keyOf c.memberId (c.city.getD ""))

/-- The `trialsToCheck` selection: trials with a member id (SQL `isNotNull`),
truthy `memberId` and `city`, whose identity key has no conversion yet. -/
def trialsToCheckOf (s : Store) : List Trial :=
  let keys := existingKeys s.conversions
  (s.trials.filter (fun t => t.memberId.isSome)).filter
    (fun t =>
      match t.memberId with
      | none => false
      | some m =>
        if m.isEmpty || t.city.isEmpty then false
        else !(keys.contains (keyOf m t.city)))

/-- The per-invocation processing ceiling (`const maxTrials = 999`). -/
def maxTrials : Nat := 999

/-- `trialsByCountry` grouping; trials with an unresolvable city are dropped
with only a console warning. -/
def groupByCountry (ts : List Trial) : List (String × List Trial) :=
  ts.foldl
    (fun acc t =>
      if !strTruthy t.memberId || t.city.isEmpty then acc
      else
        match getCountryFromCity t.city with
        | none => acc
        | some country => mapPush acc country t)
    []

/-- Accumulator of the trial processing loop. -/
structure TrialsAcc where
  store : Store
  found : Nat
  created : Nat
  errors : List String
  deriving Repr

/-- The per-trial `existingConversions` query: `memberId` and `city` both
match (SQL `eq`, so a NULL city never matches). -/
def convMatchesTrial (m c : String) (cv : Conversion) : Bool :=
  cv.memberId == m && cv.city == some c

/-- Append a fresh conversion row (`db.insert(conversions)`). -/
def convInsert (s : Store) (memberId : String) (city : Option String)
    (memberSince membershipType : String) (source : Option String)
    (hadCourseStep : Bool) : Store :=
  { s with
    conversions := s.conversions ++
      [{ id := s.nextConvId, memberId := memberId, city := city,
         memberSince := memberSince, membershipType := membershipType,
         source := source, hadCourseStep := hadCourseStep }]
    nextConvId := s.nextConvId + 1 }

/-- `db.update(conversions).set(patch).where(eq(conversions.id, i))`. -/
def convUpdateById (s : Store) (i : Nat) (f : Conversion → Conversion) : Store :=
  { s with conversions := s.conversions.map (fun c => if c.id == i then f c else c) }

/-- The body of the per-trial loop of `syncTrials` (lines 138-259). -/
def processTrial (membersMap : List (String × ContractData))
    (purchasesMap : List (String × PurchaseData)) (dryRun : Bool)
    (acc : TrialsAcc) (t : Trial) : TrialsAcc :=
  match t.memberId with
  | none => acc
  | some m =>
    if m.isEmpty || t.city.isEmpty then acc
    else
      let existing := acc.store.conversions.filter (convMatchesTrial m t.city)
      let hasCourse := existing.any (fun c => c.membershipType == "course")
      let hasMembership :=
        existing.any (fun c => c.membershipType == "flex" || c.membershipType == "loyalty")
      if hasMembership then acc
      else
        match mapGet membersMap m with
        | some contractData =>
          let acc1 := { acc with found := acc.found + 1 }
          if dryRun then acc1
          else
            if hasCourse then
              match existing.find? (fun c => c.memberId == m && c.membershipType == "course") with
              | some courseConversion =>
                { acc1 with
                  store := convUpdateById acc1.store courseConversion.id
                    (fun c =>
                      { c with
                        memberSince := contractData.startDate
                        membershipType := contractData.membershipType
                        source := some "trial"
                        hadCourseStep := true })
                  created := acc1.created + 1 }
              | none =>
                { acc1 with
                  store := convInsert acc1.store m (some t.city) contractData.startDate
                    contractData.membershipType (some "trial") true
                  created := acc1.created + 1 }
            else
              { acc1 with
                store := convInsert acc1.store m (some t.city) contractData.startDate
                  contractData.membershipType (some "trial") false
                created := acc1.created + 1 }
        | none =>
          if !hasCourse then
            match mapGet purchasesMap m with
            | some purchaseData =>
              if !purchaseData.purchaseDate.isEmpty then
                let acc1 := { acc with found := acc.found + 1 }
                if dryRun then acc1
                else
                  { acc1 with
                    store := convInsert acc1.store m (some t.city) purchaseData.purchaseDate
                      "course" (some "trial") false
                    created := acc1.created + 1 }
              else acc
            | none => acc
          else acc

/-- The per-country body: config check, bulk fetches, then the trial loop. -/
def processCountry (env : Env) (dryRun : Bool) (acc : TrialsAcc)
    (entry : String × List Trial) : TrialsAcc :=
  let country := entry.fst
  let countryTrials := entry.snd
  if !env.hasConfig country then
    { acc with errors := acc.errors ++ ["No API config found for country: " ++ country] }
  else
    let membersMap := buildMembersMap (env.members country)
    let purchasesMap := buildPurchasesMap (env.products country) env.now
    countryTrials.foldl (processTrial membersMap purchasesMap dryRun) acc

/-- The JSON payload of `syncTrials`; fields absent from the early
"no trials to check" return are `none`. -/
structure TrialsResult where
  store : Store
  success : Bool
  message : String
  conversionsFound : Nat
  conversionsCreated : Nat
  trialsChecked : Option Nat
  trialsRemaining : Option Nat
  errors : List String
  deriving Repr

/-- `syncTrials` (the whole handler, happy path). -/
def syncTrials (env : Env) (dryRun : Bool) (s : Store) : TrialsResult :=
  let trialsToCheck := trialsToCheckOf s
  if trialsToCheck.isEmpty then
    { store := s, success := true, message := "No trials to check",
      conversionsFound := 0, conversionsCreated := 0,
      trialsChecked := none, trialsRemaining := none, errors := [] }
  else
    let trialsToProcess := trialsToCheck.take maxTrials
    let groups := groupByCountry trialsToProcess
    let acc := groups.foldl (processCountry env dryRun)
      { store := s, found := 0, created := 0, errors := [] }
    { store := acc.store, success := true,
      message := "Checked " ++ toString trialsToProcess.length ++ " trials",
      conversionsFound := acc.found, conversionsCreated := acc.created,
      trialsChecked := some trialsToProcess.length,
      trialsRemaining := some (trialsToCheck.length - maxTrials),
      errors := acc.errors }

/-! ## Guest sync (the guests handler imported by `route.ts` and `syncAll`) -/

/-- `new Map(allExistingGuests.map(g => [g.memberId, g]))`: later rows win. -/
def existingGuestsMapOf (gs : List Guest) : List (String × Guest) :=
  gs.foldl (fun acc g => mapSet acc g.memberId g) []

/-- Step 1 grouping: newest product per member, compared through
`new Date(...).getTime()` with falsy dates as 0. -/
def productsByMemberOf (env : Env) (country : String) : List (String × Product) :=
  (env.products country).foldl
    (fun acc p =>
      let memberId := toString p.memberId
      match mapGet acc memberId with
      | none => mapSet acc memberId p
      | some ex =>
        let exT := if strTruthy ex.purchaseDate then env.dateTime (ex.purchaseDate.getD "") else 0
        let cuT := if strTruthy p.purchaseDate then env.dateTime (p.purchaseDate.getD "") else 0
        if exT < cuT then mapSet acc memberId p else acc)
    []

/-- City determination of step 1 (and, verbatim, of `step1CityMap`):
home-club lookup first, then the existing guest's city when it belongs to
the country being synced. -/
def determineCity (country : String) (homeClubId : Option Nat)
    (existingCity : Option String) : Option String :=
  let cityA : Option String :=
    match homeClubId with
    | some h => if h == 0 then none else getCityFromHomeClubId country (some h)
    | none => none
  match cityA with
  | some c => some c
  | none =>
    match existingCity with
    | some gc =>
      if gc.isEmpty then none
      else if getCountryFromCity gc == some country then some gc else none
    | none => none

/-- `db.insert(guests)`. -/
def guestInsert (s : Store) (g : Guest) : Store :=
  { s with guests := s.guests ++ [g] }

/-- `db.update(guests).set(...).where(eq(guests.memberId, m))`. -/
def guestsUpdateBy (s : Store) (memberId : String) (f : Guest → Guest) : Store :=
  { s with guests := s.guests.map (fun g => if g.memberId == memberId then f g else g) }

/-- Accumulator of step 1. -/
structure Step1Acc where
  store : Store
  created : Nat
  updated : Nat
  toCreate : Nat
  toUpdate : Nat
  deriving Repr

/-- Step 1 body: upsert one guest row from the member's newest product. -/
def processStep1 (env : Env) (country : String) (dryRun : Bool)
    (egMap : List (String × Guest)) (acc : Step1Acc)
    (entry : String × Product) : Step1Acc :=
  let memberId := entry.fst
  let p := entry.snd
  let existingGuest := mapGet egMap memberId
  let city := determineCity country p.homeClubId (existingGuest.bind Guest.city)
  match city with
  | none => acc
  | some c =>
    if getCountryFromCity c != some country then acc
    else
      let startDateVal :=
        if strTruthy p.purchaseDate then env.isoOf (p.purchaseDate.getD "") else env.now
      match existingGuest with
      | none =>
        if dryRun then { acc with toCreate := acc.toCreate + 1 }
        else
          { acc with
            store := guestInsert acc.store
              { memberId := memberId, creditsLeft := p.currentQuantity, city := some c,
                startDate := some startDateVal, packageSize := p.initialQuantity,
                convertedAt := none, updatedAt := env.now }
            created := acc.created + 1 }
      | some g =>
        let needsUpdate :=
          (g.creditsLeft != p.currentQuantity) || (g.packageSize != p.initialQuantity) ||
            !strTruthy g.city
        if needsUpdate then
          if dryRun then { acc with toUpdate := acc.toUpdate + 1 }
          else
            { acc with
              store := guestsUpdateBy acc.store memberId
                (fun gu =>
                  { gu with
                    creditsLeft := p.currentQuantity
                    packageSize := p.initialQuantity
                    city := some c
                    updatedAt := env.now })
              updated := acc.updated + 1 }
        else acc

/-- `trialsByMemberId`: first trial row per truthy member id. -/
def trialsByMemberIdOf (ts : List Trial) : List (String × Trial) :=
  ts.foldl
    (fun acc t =>
      match t.memberId with
      | some m => if !m.isEmpty && (mapGet acc m).isNone then acc ++ [(m, t)] else acc
      | none => acc)
    []

/-- `step1CityMap`: per step-1 member, the same city determination again. -/
def step1CityMapOf (env : Env) (country : String)
    (egMap : List (String × Guest)) : List (String × Option String) :=
  (productsByMemberOf env country).map
    (fun e => (e.fst, determineCity country e.snd.homeClubId ((mapGet egMap e.fst).bind Guest.city)))

/-- One entry of `guestsToCheck`. -/
structure GuestCheck where
  memberId : String
  creditsLeft : Int
  city : Option String
  deriving DecidableEq, Repr

/-- The step-1 part of `guestsToCheck`: step-1 members whose pre-run guest
row (if any) has no truthy `convertedAt`, with
`city = step1CityMap.get(m) || existingGuest?.city || null`. -/
def checksFromStep1 (env : Env) (country : String)
    (egMap : List (String × Guest)) : List GuestCheck :=
  (productsByMemberOf env country).filterMap
    (fun e =>
      let existingGuest := mapGet egMap e.fst
      let convertedAt := truthyOrNone (existingGuest.bind Guest.convertedAt)
      if convertedAt.isNone then
        some
          { memberId := e.fst
            creditsLeft := e.snd.currentQuantity
            city :=
              jsOrStr ((mapGet (step1CityMapOf env country egMap) e.fst).getD none)
                (jsOrStr (existingGuest.bind Guest.city) none) }
      else none)

/-- `activeGuestsFromDb`: unconverted guests of this country read from the
(post step 1) store that are not already step-1 members. -/
def activeGuestsFromDbOf (country : String) (step1Ids : List String)
    (allGuests : List Guest) : List Guest :=
  allGuests.filter
    (fun g =>
      !strTruthy g.convertedAt && !step1Ids.contains g.memberId &&
        strTruthy g.city && getCountryFromCity (g.city.getD "") == some country)

/-- Accumulator of step 2. -/
structure Step2Acc where
  store : Store
  converted : Nat
  convCreated : Nat
  toConvert : Nat
  deriving Repr

/-- The conversion-existence condition of step 2: terminal record for the
member, keyed by city when one is known, `IS NULL` otherwise. -/
def guestConvMatches (memberId : String) (cityForConversion : Option String)
    (cv : Conversion) : Bool :=
  cv.memberId == memberId &&
    (cv.membershipType == "flex" || cv.membershipType == "loyalty") &&
    (match cityForConversion with
     | some ct => cv.city == some ct
     | none => cv.city == none)

/-- The `cityForConversion` value step 2 settles on: the guest's own city,
or the step-1 city map entry, or `null`. -/
def cfcOf (s1cm : List (String × Option String)) (g : GuestCheck) : Option String :=
  if strTruthy g.city then g.city
  else truthyOrNone ((mapGet s1cm g.memberId).getD none)

/-- Step 2 body: one guest's conversion check against `membersMap`. -/
def processStep2 (env : Env) (membersMap : List (String × ContractData))
    (s1cm : List (String × Option String)) (trialsMap : List (String × Trial))
    (dryRun : Bool) (acc : Step2Acc) (g : GuestCheck) : Step2Acc :=
  match mapGet membersMap g.memberId with
  | none => acc
  | some contractData =>
    if dryRun then { acc with toConvert := acc.toConvert + 1 }
    else
      let st := guestsUpdateBy acc.store g.memberId
        (fun gu => { gu with convertedAt := some contractData.startDate, updatedAt := env.now })
      let st2 :=
        if strTruthy g.city then st
        else
          match truthyOrNone ((mapGet s1cm g.memberId).getD none) with
          | some c => guestsUpdateBy st g.memberId (fun gu => { gu with city := some c })
          | none => st
      let cityForConversion := cfcOf s1cm g
      let existing := st2.conversions.filter (guestConvMatches g.memberId cityForConversion)
      if existing.isEmpty then
        let hadTrial := (mapGet trialsMap g.memberId).isSome
        { store :=
            convInsert st2 g.memberId (truthyOrNone cityForConversion) contractData.startDate
              contractData.membershipType (some (if hadTrial then "trial" else "guest")) hadTrial
          converted := acc.converted + 1
          convCreated := acc.convCreated + 1
          toConvert := acc.toConvert }
      else
        { acc with store := st2, converted := acc.converted + 1 }

/-- The JSON payload of the guests handler. -/
structure GuestsResult where
  store : Store
  status : Nat
  guestsCreated : Nat
  guestsUpdated : Nat
  guestsToCreate : Nat
  guestsToUpdate : Nat
  guestsConverted : Nat
  guestsToConvert : Nat
  conversionsCreated : Nat
  deriving Repr

/-- The result of step 1 (guest upserts from the newest products). -/
def step1AccOf (env : Env) (country : String) (dryRun : Bool) (s : Store) : Step1Acc :=
  (productsByMemberOf env country).foldl
    (processStep1 env country dryRun (existingGuestsMapOf s.guests))
    { store := s, created := 0, updated := 0, toCreate := 0, toUpdate := 0 }

/-- The full `guestsToCheck` list of a run: step-1 members first, then
unconverted guests of this country read from the post-step-1 store. -/
def guestChecksOf (env : Env) (country : String) (dryRun : Bool) (s : Store) : List GuestCheck :=
  checksFromStep1 env country (existingGuestsMapOf s.guests) ++
    (activeGuestsFromDbOf country ((productsByMemberOf env country).map Prod.fst)
      (step1AccOf env country dryRun s).store.guests).map
      (fun g => { memberId := g.memberId, creditsLeft := g.creditsLeft, city := g.city })

/-- `syncGuests` (the whole handler, happy path). -/
def syncGuests (env : Env) (countryParam : String) (dryRun : Bool) (s : Store) : GuestsResult :=
  match mapGet countryParamMap (strToLower countryParam) with
  | none =>
    { store := s, status := 400, guestsCreated := 0, guestsUpdated := 0, guestsToCreate := 0,
      guestsToUpdate := 0, guestsConverted := 0, guestsToConvert := 0, conversionsCreated := 0 }
  | some country =>
    if !env.hasConfig country then
      { store := s, status := 500, guestsCreated := 0, guestsUpdated := 0, guestsToCreate := 0,
        guestsToUpdate := 0, guestsConverted := 0, guestsToConvert := 0, conversionsCreated := 0 }
    else
      let a1 := step1AccOf env country dryRun s
      let membersMap := buildMembersMap (env.members country)
      let trialsMap := trialsByMemberIdOf a1.store.trials
      let s1cm := step1CityMapOf env country (existingGuestsMapOf s.guests)
      let checks := guestChecksOf env country dryRun s
      let a2 := checks.foldl (processStep2 env membersMap s1cm trialsMap dryRun)
        { store := a1.store, converted := 0, convCreated := 0, toConvert := 0 }
      { store := a2.store, status := 200,
        guestsCreated := a1.created, guestsUpdated := a1.updated,
        guestsToCreate := a1.toCreate, guestsToUpdate := a1.toUpdate,
        guestsConverted := a2.converted, guestsToConvert := a2.toConvert,
        conversionsCreated := a2.convCreated }

/-! ## Orchestrator and route (`syncAll`, `src/app/api/sync/all/route.ts`) -/

/-- Combined result of `syncAll`: trials sync first, then guests sync. -/
structure AllResult where
  store : Store
  trialsFound : Nat
  trialsCreated : Nat
  guestsCreated : Nat
  guestsUpdated : Nat
  guestsConverted : Nat
  guestsConversionsCreated : Nat
  deriving Repr

/-- `syncAll`: run the trial sync, then the guest sync on the resulting store. -/
def syncAll (env : Env) (countryParam : String) (dryRun : Bool) (s : Store) : AllResult :=
  let tr := syncTrials env dryRun s
  let gr := syncGuests env countryParam dryRun tr.store
  { store := gr.store,
    trialsFound := tr.conversionsFound, trialsCreated := tr.conversionsCreated,
    guestsCreated := gr.guestsCreated, guestsUpdated := gr.guestsUpdated,
    guestsConverted := gr.guestsConverted, guestsConversionsCreated := gr.conversionsCreated }

/-- `searchParams.get('execute') === 'true'`: strict string equality. -/
def executeFlag (executeParam : Option String) : Bool :=
  executeParam == some "true"

/-- The valid `type` values (`SYNC_TYPES`). -/
def syncTypes : List String := ["trials", "guests", "all"]

/-- Outcome of `handleRequest`: the store afterwards and the HTTP status. -/
structure RouteResult where
  store : Store
  status : Nat
  deriving Repr

/-- `handleRequest` of `route.ts`: parameter parsing, validation, dispatch.
`dryRun = !(execute === 'true')`. -/
def handleRequest (env : Env) (typeParam countryParam executeParam : Option String)
    (s : Store) : RouteResult :=
  let execute := executeFlag executeParam
  let dryRun := !execute
  if !strTruthy typeParam || !(syncTypes.contains (typeParam.getD "")) then
    { store := s, status := 400 }
  else
    let t := typeParam.getD ""
    if (t == "guests" || t == "all") && !strTruthy countryParam then
      { store := s, status := 400 }
    else if t == "trials" then
      { store := (syncTrials env dryRun s).store, status := 200 }
    else if t == "guests" then
      let r := syncGuests env (countryParam.getD "") dryRun s
      { store := r.store, status := r.status }
    else
      { store := (syncAll env (countryParam.getD "") dryRun s).store, status := 200 }

/-! ## Generic fold lemmas -/

theorem foldl_preserve {σ α : Type} {f : σ → α → σ} {Q : σ → Prop} :
    ∀ (l : List α) (init : σ), (∀ acc a, a ∈ l → Q acc → Q (f acc a)) → Q init →
      Q (l.foldl f init)
  | [], _, _, h0 => h0
  | x :: xs, init, hstep, h0 =>
    foldl_preserve xs (f init x)
      (fun acc a ha hq => hstep acc a (List.mem_cons_of_mem _ ha) hq)
      (hstep init x (List.mem_cons_self _ _) h0)

theorem foldl_establish {σ α : Type} {f : σ → α → σ} {P : α → σ → Prop}
    (l : List α) (init : σ)
    (hstep : ∀ acc a, a ∈ l → P a (f acc a))
    (hframe : ∀ acc a b, a ∈ l → b ∈ l → P b acc → P b (f acc a)) :
    ∀ a, a ∈ l → P a (l.foldl f init) := by
  induction l generalizing init with
  | nil => intro a ha; cases ha
  | cons x xs ih =>
    intro a ha
    rw [List.foldl_cons]
    rcases List.mem_cons.mp ha with rfl | hmem
    · exact foldl_preserve xs (f init a)
        (fun acc b hb hq => hframe acc b a (List.mem_cons_of_mem _ hb) ha hq)
        (hstep init a ha)
    · exact ih (f init x)
        (fun acc b hb => hstep acc b (List.mem_cons_of_mem _ hb))
        (fun acc b c hb hc h => hframe acc b c (List.mem_cons_of_mem _ hb)
          (List.mem_cons_of_mem _ hc) h)
        a hmem

theorem foldl_fix {σ α : Type} (f : σ → α → σ) (acc : σ) :
    ∀ l : List α, (∀ x ∈ l, f acc x = acc) → l.foldl f acc = acc
  | [], _ => rfl
  | x :: xs, h => by
    rw [List.foldl_cons, h x (List.mem_cons_self _ _)]
    exact foldl_fix f acc xs (fun y hy => h y (List.mem_cons_of_mem _ hy))

theorem filter_replicate_of_pos {α : Type} (p : α → Bool) (a : α) (h : p a = true) :
    ∀ n, (List.replicate n a).filter p = List.replicate n a
  | 0 => rfl
  | n + 1 => by
    rw [List.replicate_succ, List.filter_cons, if_pos h, filter_replicate_of_pos p a h n,
      ← List.replicate_succ]

theorem filter_replicate_of_neg {α : Type} (p : α → Bool) (a : α) (h : p a = false) :
    ∀ n, (List.replicate n a).filter p = []
  | 0 => rfl
  | n + 1 => by
    rw [List.replicate_succ, List.filter_cons, if_neg (by simp [h]),
      filter_replicate_of_neg p a h n]

theorem foldl_establish_pairwise {σ α : Type} {f : σ → α → σ} {P : α → σ → Prop}
    {R : α → α → Prop} (l : List α) (init : σ)
    (hpw : l.Pairwise R)
    (hstep : ∀ acc a, a ∈ l → P a (f acc a))
    (hframe : ∀ acc a b, R b a → P b acc → P b (f acc a)) :
    ∀ a, a ∈ l → P a (l.foldl f init) := by
  induction l generalizing init with
  | nil => intro a ha; cases ha
  | cons x xs ih =>
    intro a ha
    rw [List.foldl_cons]
    rcases List.mem_cons.mp ha with rfl | hmem
    · exact foldl_preserve xs (f init a)
        (fun acc b hb hq => hframe acc b a ((List.pairwise_cons.mp hpw).1 b hb) hq)
        (hstep init a ha)
    · exact ih (f init x)
        (List.pairwise_cons.mp hpw).2
        (fun acc b hb => hstep acc b (List.mem_cons_of_mem _ hb))
        a hmem

/-! ## Association-map lemmas -/

theorem mapGet_mapSet_self {β : Type} (m : List (String × β)) (k : String) (v : β) :
    mapGet (mapSet m k v) k = some v := by
  induction m with
  | nil => simp [mapSet, mapGet]
  | cons e t ih =>
    obtain ⟨a, b⟩ := e
    by_cases h : a = k
    · simp [mapSet, mapGet, h]
    · simp [mapSet, mapGet, h, ih]

theorem mapGet_mapSet_ne {β : Type} (m : List (String × β)) (k k' : String) (v : β)
    (h : k' ≠ k) : mapGet (mapSet m k v) k' = mapGet m k' := by
  induction m with
  | nil => simp [mapSet, mapGet, Ne.symm h]
  | cons e t ih =>
    obtain ⟨a, b⟩ := e
    by_cases he : a = k
    · subst he
      have hne : ¬a = k' := fun hh => h hh.symm
      simp [mapSet, mapGet, hne]
    · by_cases he' : a = k'
      · simp [mapSet, mapGet, he, he', h]
      · simp [mapSet, mapGet, he, he', ih]

theorem mapGet_mem {β : Type} (m : List (String × β)) (k : String) (v : β)
    (h : mapGet m k = some v) : (k, v) ∈ m := by
  induction m with
  | nil => simp [mapGet] at h
  | cons e t ih =>
    obtain ⟨a, b⟩ := e
    by_cases he : a = k
    · subst he
      simp only [mapGet, beq_self_eq_true, if_true, Option.some.injEq] at h
      subst h
      exact List.mem_cons_self _ _
    · simp only [mapGet, beq_iff_eq, if_neg he] at h
      exact List.mem_cons_of_mem _ (ih h)

theorem natMapGet_mem (m : List (Nat × String)) (k : Nat) (v : String)
    (h : natMapGet m k = some v) : (k, v) ∈ m := by
  induction m with
  | nil => simp [natMapGet] at h
  | cons e t ih =>
    obtain ⟨a, b⟩ := e
    by_cases he : a = k
    · subst he
      simp only [natMapGet, beq_self_eq_true, if_true, Option.some.injEq] at h
      subst h
      exact List.mem_cons_self _ _
    · simp only [natMapGet, beq_iff_eq, if_neg he] at h
      exact List.mem_cons_of_mem _ (ih h)

/-- Distinct first components, the invariant of the JS `Map` model. -/
def keysDistinct {β : Type} (m : List (String × β)) : Prop :=
  m.Pairwise (fun a b => a.fst ≠ b.fst)

theorem mapSet_keys_sub {β : Type} (m : List (String × β)) (k : String) (v : β) :
    ∀ e ∈ mapSet m k v, e.fst = k ∨ ∃ e' ∈ m, e.fst = e'.fst := by
  induction m with
  | nil =>
    intro e he
    simp only [mapSet, List.mem_singleton] at he
    subst he
    exact Or.inl rfl
  | cons x t ih =>
    intro e he
    obtain ⟨a, b⟩ := x
    by_cases hx : a = k
    · simp only [mapSet, beq_iff_eq, if_pos hx] at he
      rcases List.mem_cons.mp he with rfl | h
      · exact Or.inl rfl
      · exact Or.inr ⟨e, List.mem_cons_of_mem _ h, rfl⟩
    · simp only [mapSet, beq_iff_eq, if_neg hx] at he
      rcases List.mem_cons.mp he with rfl | h
      · exact Or.inr ⟨(a, b), List.mem_cons_self _ _, rfl⟩
      · rcases ih e h with h1 | ⟨e', he', h2⟩
        · exact Or.inl h1
        · exact Or.inr ⟨e', List.mem_cons_of_mem _ he', h2⟩

theorem mapSet_keysDistinct {β : Type} (m : List (String × β)) (k : String) (v : β)
    (h : keysDistinct m) : keysDistinct (mapSet m k v) := by
  induction m with
  | nil => simp [mapSet, keysDistinct]
  | cons x t ih =>
    rcases List.pairwise_cons.mp h with ⟨hx, ht⟩
    obtain ⟨a, b⟩ := x
    by_cases hk : a = k
    · simp only [mapSet, beq_iff_eq, if_pos hk]
      refine List.pairwise_cons.mpr ⟨fun e he => ?_, ht⟩
      have := hx e he
      simp only [← hk]
      exact this
    · simp only [mapSet, beq_iff_eq, if_neg hk]
      refine List.pairwise_cons.mpr ⟨fun e he => ?_, ih ht⟩
      rcases mapSet_keys_sub t k v e he with h1 | ⟨e', he', h2⟩
      · rw [h1]; exact hk
      · rw [h2]; exact hx e' he'

theorem mapGet_of_keysDistinct {β : Type} (m : List (String × β)) (k : String) (v : β)
    (hd : keysDistinct m) (hmem : (k, v) ∈ m) : mapGet m k = some v := by
  induction m with
  | nil => cases hmem
  | cons x t ih =>
    rcases List.pairwise_cons.mp hd with ⟨hx, ht⟩
    obtain ⟨a, b⟩ := x
    rcases List.mem_cons.mp hmem with h | h
    · rw [Prod.mk.injEq] at h
      simp [mapGet, h.1, h.2]
    · have hne : a ≠ k := hx (k, v) h
      simp only [mapGet, beq_iff_eq, if_neg hne]
      exact ih ht h

theorem mapGet_map_keyed {β γ : Type} (F : String × β → γ) (m : List (String × β))
    (k : String) (v : β) (hd : keysDistinct m) (hmem : (k, v) ∈ m) :
    mapGet (m.map (fun e => (e.fst, F e))) k = some (F (k, v)) := by
  induction m with
  | nil => cases hmem
  | cons x t ih =>
    rcases List.pairwise_cons.mp hd with ⟨hx, ht⟩
    obtain ⟨a, b⟩ := x
    rcases List.mem_cons.mp hmem with h | h
    · rw [Prod.mk.injEq] at h
      obtain ⟨h1, h2⟩ := h
      subst h1; subst h2
      simp [mapGet]
    · have hne : a ≠ k := hx (k, v) h
      simp only [List.map_cons, mapGet, beq_iff_eq, if_neg hne]
      exact ih ht h

/-! ## Truthiness and membership-type lemmas -/

theorem strTruthy_iff (o : Option String) :
    strTruthy o = true ↔ ∃ s, o = some s ∧ s.isEmpty = false := by
  cases o with
  | none => simp [strTruthy]
  | some s => simp [strTruthy]

theorem truthyOrNone_eq_none_iff (o : Option String) :
    truthyOrNone o = none ↔ strTruthy o = false := by
  by_cases h : strTruthy o = true
  · rcases (strTruthy_iff o).mp h with ⟨s, rfl, _⟩
    simp [truthyOrNone, h]
  · have hf : strTruthy o = false := by simpa using h
    simp [truthyOrNone, hf]

theorem mapMembershipType_eq (s : String) :
    mapMembershipType s =
      if strContainsSub (strToLower s) "loyalty" = true then "loyalty" else "flex" := by
  by_cases h : strContainsSub (strToLower s) "loyalty" = true <;>
    simp [mapMembershipType, h]

theorem mapMembershipType_cases (s : String) :
    mapMembershipType s = "loyalty" ∨ mapMembershipType s = "flex" := by
  rw [mapMembershipType_eq]
  by_cases h : strContainsSub (strToLower s) "loyalty" = true <;> simp [h]

theorem buildMembersMap_val_aux :
    ∀ (ms : List Member) (acc : List (String × ContractData)),
      (∀ k cd, mapGet acc k = some cd →
        (cd.membershipType = "flex" ∨ cd.membershipType = "loyalty") ∧
          cd.startDate.isEmpty = false) →
      ∀ k cd,
        mapGet (ms.foldl (fun acc member =>
          match member.contracts.head? with
          | none => acc
          | some c =>
            if strTruthy c.startDate then
              mapSet acc (toString member.id)
                { startDate := c.startDate.getD ""
                  membershipType := mapMembershipType (orStr c.paymentPlanName "") }
            else acc) acc) k = some cd →
        (cd.membershipType = "flex" ∨ cd.membershipType = "loyalty") ∧
          cd.startDate.isEmpty = false := by
  intro ms
  induction ms with
  | nil => intro acc hacc k cd h; exact hacc k cd h
  | cons member t ih =>
    intro acc hacc k cd h
    rw [List.foldl_cons] at h
    refine ih _ ?_ k cd h
    intro k' cd' h'
    cases hc : member.contracts.head? with
    | none =>
      simp only [hc] at h'
      exact hacc k' cd' h'
    | some c =>
      simp only [hc] at h'
      by_cases hs : strTruthy c.startDate = true
      · rw [if_pos hs] at h'
        by_cases hk : k' = toString member.id
        · subst hk
          rw [mapGet_mapSet_self] at h'
          cases h'
          constructor
          · exact (mapMembershipType_cases (orStr c.paymentPlanName "")).symm
          · rcases (strTruthy_iff c.startDate).mp hs with ⟨d, hd, hde⟩
            simp [hd, hde]
        · rw [mapGet_mapSet_ne _ _ _ _ hk] at h'
          exact hacc k' cd' h'
      · rw [if_neg hs] at h'
        exact hacc k' cd' h'

/-- Values of `membersMap` always carry a terminal membership type and a
nonempty contract start date. -/
theorem buildMembersMap_val (ms : List Member) :
    ∀ k cd, mapGet (buildMembersMap ms) k = some cd →
      (cd.membershipType = "flex" ∨ cd.membershipType = "loyalty") ∧
        cd.startDate.isEmpty = false :=
  buildMembersMap_val_aux ms [] (by intro k cd h; simp [mapGet] at h)

/-! ## Dry-run purity -/

theorem processTrial_dry (mm : List (String × ContractData))
    (pm : List (String × PurchaseData)) (acc : TrialsAcc) (t : Trial) :
    (processTrial mm pm true acc t).store = acc.store := by
  cases htm : t.memberId with
  | none => simp [processTrial, htm]
  | some m =>
    simp only [processTrial, htm]
    split
    · rfl
    · split
      · rfl
      · split
        · rfl
        · split
          · split
            · split
              · rfl
              · rfl
            · rfl
          · rfl

theorem processCountry_dry (env : Env) (acc : TrialsAcc) (e : String × List Trial) :
    (processCountry env true acc e).store = acc.store := by
  unfold processCountry
  dsimp only
  split
  · rfl
  · refine foldl_preserve e.snd acc (Q := fun σ => σ.store = acc.store) ?_ rfl
    intro σ t _ hq
    rw [processTrial_dry]
    exact hq

theorem syncTrials_dry (env : Env) (s : Store) :
    (syncTrials env true s).store = s := by
  unfold syncTrials
  dsimp only
  split
  · rfl
  · refine foldl_preserve (groupByCountry ((trialsToCheckOf s).take maxTrials))
      ({ store := s, found := 0, created := 0, errors := [] } : TrialsAcc)
      (Q := fun σ => σ.store = s) ?_ rfl
    intro σ e _ hq
    rw [processCountry_dry]
    exact hq

theorem processStep1_dry (env : Env) (country : String)
    (egMap : List (String × Guest)) (acc : Step1Acc) (e : String × Product) :
    (processStep1 env country true egMap acc e).store = acc.store := by
  unfold processStep1
  dsimp only
  split
  · rfl
  · split
    · rfl
    · split
      · rfl
      · split <;> rfl

theorem processStep2_dry (env : Env) (mm : List (String × ContractData))
    (s1cm : List (String × Option String)) (tm : List (String × Trial))
    (acc : Step2Acc) (g : GuestCheck) :
    (processStep2 env mm s1cm tm true acc g).store = acc.store := by
  unfold processStep2
  split
  · rfl
  · rfl

theorem syncGuests_dry (env : Env) (cp : String) (s : Store) :
    (syncGuests env cp true s).store = s := by
  unfold syncGuests
  split
  · rfl
  · split
    · rfl
    · dsimp only
      refine foldl_preserve _ _ (Q := fun (σ : Step2Acc) => σ.store = s) ?_ ?_
      · intro σ g _ hq
        rw [processStep2_dry]
        exact hq
      · dsimp only
        refine foldl_preserve _ _ (Q := fun (σ : Step1Acc) => σ.store = s) ?_ rfl
        intro σ e _ hq
        rw [processStep1_dry]
        exact hq

theorem syncAll_dry (env : Env) (cp : String) (s : Store) :
    (syncAll env cp true s).store = s := by
  unfold syncAll
  dsimp only
  rw [syncTrials_dry, syncGuests_dry]

/-! ## Trial-handler evolution lemmas -/

/-- A conversion for the identity key `(m, c)` exists. -/
def hasKeyB (s : Store) (m c : String) : Bool :=
  s.conversions.any (fun cv => cv.memberId == m && cv.city == some c)

theorem hasKeyB_iff (s : Store) (m c : String) :
    hasKeyB s m c = true ↔ ∃ cv ∈ s.conversions, cv.memberId = m ∧ cv.city = some c := by
  simp [hasKeyB, List.any_eq_true]

theorem processTrial_frame (mm : List (String × ContractData))
    (pm : List (String × PurchaseData)) (dr : Bool) (acc : TrialsAcc) (t : Trial) :
    (processTrial mm pm dr acc t).store.trials = acc.store.trials ∧
    (processTrial mm pm dr acc t).store.guests = acc.store.guests ∧
    (processTrial mm pm dr acc t).errors = acc.errors := by
  cases htm : t.memberId with
  | none => simp [processTrial, htm]
  | some m =>
    simp only [processTrial, htm]
    repeat' split
    all_goals exact ⟨rfl, rfl, rfl⟩

/-- Every conversion after a per-trial step either keeps the identity key of
a record already present, or carries exactly the processed trial's key. -/
theorem processTrial_conv_key (mm : List (String × ContractData))
    (pm : List (String × PurchaseData)) (dr : Bool) (acc : TrialsAcc) (t : Trial) :
    ∀ cv' ∈ (processTrial mm pm dr acc t).store.conversions,
      (∃ cv ∈ acc.store.conversions, cv'.memberId = cv.memberId ∧ cv'.city = cv.city) ∨
      (∃ m, t.memberId = some m ∧ cv'.memberId = m ∧ cv'.city = some t.city) := by
  have hself : ∀ cv' ∈ acc.store.conversions,
      (∃ cv ∈ acc.store.conversions, cv'.memberId = cv.memberId ∧ cv'.city = cv.city) ∨
      (∃ m, t.memberId = some m ∧ cv'.memberId = m ∧ cv'.city = some t.city) :=
    fun cv' h => Or.inl ⟨cv', h, rfl, rfl⟩
  cases htm : t.memberId with
  | none => simpa [processTrial, htm] using hself
  | some m =>
    simp only [processTrial, htm]
    split
    · exact fun cv' hcv' => Or.inl ⟨cv', hcv', rfl, rfl⟩
    · split
      · exact fun cv' hcv' => Or.inl ⟨cv', hcv', rfl, rfl⟩
      · split
        · split
          · exact fun cv' hcv' => Or.inl ⟨cv', hcv', rfl, rfl⟩
          · split
            · split
              · intro cv' hcv'
                rcases List.mem_map.mp hcv' with ⟨cv, hcv, heq⟩
                subst heq
                refine Or.inl ⟨cv, hcv, ?_, ?_⟩ <;> (dsimp only; split <;> rfl)
              · intro cv' hcv'
                rcases List.mem_append.mp hcv' with h | h
                · exact Or.inl ⟨cv', h, rfl, rfl⟩
                · rw [List.mem_singleton] at h
                  subst h
                  exact Or.inr ⟨m, rfl, rfl, rfl⟩
            · intro cv' hcv'
              rcases List.mem_append.mp hcv' with h | h
              · exact Or.inl ⟨cv', h, rfl, rfl⟩
              · rw [List.mem_singleton] at h
                subst h
                exact Or.inr ⟨m, rfl, rfl, rfl⟩
        · split
          · split
            · split
              · split
                · exact fun cv' hcv' => Or.inl ⟨cv', hcv', rfl, rfl⟩
                · intro cv' hcv'
                  rcases List.mem_append.mp hcv' with h | h
                  · exact Or.inl ⟨cv', h, rfl, rfl⟩
                  · rw [List.mem_singleton] at h
                    subst h
                    exact Or.inr ⟨m, rfl, rfl, rfl⟩
              · exact fun cv' hcv' => Or.inl ⟨cv', hcv', rfl, rfl⟩
            · exact fun cv' hcv' => Or.inl ⟨cv', hcv', rfl, rfl⟩
          · exact fun cv' hcv' => Or.inl ⟨cv', hcv', rfl, rfl⟩

/-- Identity keys of existing conversions persist through a per-trial step. -/
theorem processTrial_conv_persist (mm : List (String × ContractData))
    (pm : List (String × PurchaseData)) (dr : Bool) (acc : TrialsAcc) (t : Trial) :
    ∀ cv ∈ acc.store.conversions,
      ∃ cv' ∈ (processTrial mm pm dr acc t).store.conversions,
        cv'.memberId = cv.memberId ∧ cv'.city = cv.city := by
  have hself : ∀ cv ∈ acc.store.conversions,
      ∃ cv' ∈ acc.store.conversions, cv'.memberId = cv.memberId ∧ cv'.city = cv.city :=
    fun cv h => ⟨cv, h, rfl, rfl⟩
  cases htm : t.memberId with
  | none => simpa [processTrial, htm] using hself
  | some m =>
    simp only [processTrial, htm]
    repeat' split
    all_goals
      first
        | (intro cv hcv
           exact ⟨cv, hcv, rfl, rfl⟩)
        | (intro cv hcv
           exact ⟨cv, List.mem_append_left _ hcv, rfl, rfl⟩)
        | (intro cv hcv
           refine ⟨_, List.mem_map_of_mem _ hcv, ?_, ?_⟩ <;> (dsimp only; split <;> rfl))

/-! ## Grouping lemmas -/

theorem mapPush_mem {α : Type} (m : List (String × List α)) (k : String) (x : α) :
    ∀ e ∈ mapPush m k x, ∀ y ∈ e.snd,
      (∃ e₀ ∈ m, e₀.fst = e.fst ∧ y ∈ e₀.snd) ∨ (e.fst = k ∧ y = x) := by
  induction m with
  | nil =>
    intro e he y hy
    simp only [mapPush, List.mem_singleton] at he
    subst he
    simp only [List.mem_singleton] at hy
    exact Or.inr ⟨rfl, hy⟩
  | cons g t ih =>
    obtain ⟨k', xs⟩ := g
    intro e he y hy
    by_cases hk : k' = k
    · simp only [mapPush, beq_iff_eq, if_pos hk] at he
      rcases List.mem_cons.mp he with rfl | h
      · rcases List.mem_append.mp hy with h1 | h1
        · exact Or.inl ⟨(k', xs), List.mem_cons_self _ _, rfl, h1⟩
        · rw [List.mem_singleton] at h1
          exact Or.inr ⟨hk, h1⟩
      · exact Or.inl ⟨e, List.mem_cons_of_mem _ h, rfl, hy⟩
    · simp only [mapPush, beq_iff_eq, if_neg hk] at he
      rcases List.mem_cons.mp he with rfl | h
      · exact Or.inl ⟨(k', xs), List.mem_cons_self _ _, rfl, hy⟩
      · rcases ih e h y hy with ⟨e₀, he₀, h1, h2⟩ | h1
        · exact Or.inl ⟨e₀, List.mem_cons_of_mem _ he₀, h1, h2⟩
        · exact Or.inr h1

theorem mapPush_self {α : Type} (m : List (String × List α)) (k : String) (x : α) :
    ∃ e ∈ mapPush m k x, e.fst = k ∧ x ∈ e.snd := by
  induction m with
  | nil => exact ⟨(k, [x]), List.mem_singleton.mpr rfl, rfl, List.mem_singleton.mpr rfl⟩
  | cons g t ih =>
    obtain ⟨k', xs⟩ := g
    by_cases hk : k' = k
    · refine ⟨(k', xs ++ [x]), ?_, hk, List.mem_append_right _ (List.mem_singleton.mpr rfl)⟩
      simp only [mapPush, beq_iff_eq, if_pos hk]
      exact List.mem_cons_self _ _
    · rcases ih with ⟨e, he, h1, h2⟩
      refine ⟨e, ?_, h1, h2⟩
      simp only [mapPush, beq_iff_eq, if_neg hk]
      exact List.mem_cons_of_mem _ he

theorem mapPush_preserve {α : Type} (m : List (String × List α)) (k : String) (x : α) :
    ∀ e ∈ m, ∀ y ∈ e.snd, ∃ e' ∈ mapPush m k x, e'.fst = e.fst ∧ y ∈ e'.snd := by
  induction m with
  | nil => intro e he; cases he
  | cons g t ih =>
    obtain ⟨k', xs⟩ := g
    intro e he y hy
    by_cases hk : k' = k
    · simp only [mapPush, beq_iff_eq, if_pos hk]
      rcases List.mem_cons.mp he with rfl | h
      · exact ⟨(k', xs ++ [x]), List.mem_cons_self _ _, rfl, List.mem_append_left _ hy⟩
      · exact ⟨e, List.mem_cons_of_mem _ h, rfl, hy⟩
    · simp only [mapPush, beq_iff_eq, if_neg hk]
      rcases List.mem_cons.mp he with rfl | h
      · exact ⟨(k', xs), List.mem_cons_self _ _, rfl, hy⟩
      · rcases ih e h y hy with ⟨e', he', h1, h2⟩
        exact ⟨e', List.mem_cons_of_mem _ he', h1, h2⟩

/-- Soundness of the grouping: every trial in a country's bucket came from
the processed list, is well-shaped, and resolves to that bucket's country. -/
theorem groupByCountry_sound (ts : List Trial) :
    ∀ e ∈ groupByCountry ts, ∀ t ∈ e.snd,
      t ∈ ts ∧ strTruthy t.memberId = true ∧ t.city.isEmpty = false ∧
        getCountryFromCity t.city = some e.fst := by
  unfold groupByCountry
  refine foldl_preserve ts []
    (Q := fun (mp : List (String × List Trial)) => ∀ e ∈ mp, ∀ t ∈ e.snd,
      t ∈ ts ∧ strTruthy t.memberId = true ∧ t.city.isEmpty = false ∧
        getCountryFromCity t.city = some e.fst) ?_ ?_
  · intro acc t ht hq e he y hy
    by_cases h1 : (!strTruthy t.memberId || t.city.isEmpty) = true
    · rw [if_pos h1] at he
      exact hq e he y hy
    · rw [if_neg h1] at he
      cases hco : getCountryFromCity t.city with
      | none =>
        simp only [hco] at he
        exact hq e he y hy
      | some co =>
        simp only [hco] at he
        rcases mapPush_mem acc co t e he y hy with ⟨e₀, he₀, hfst, hy₀⟩ | ⟨hfst, rfl⟩
        · have hres := hq e₀ he₀ y hy₀
          rw [← hfst]
          exact hres
        · have hA : strTruthy y.memberId = true := by
            cases hA2 : strTruthy y.memberId
            · exact absurd (by simp [hA2]) h1
            · rfl
          have hB : y.city.isEmpty = false := by
            cases hB2 : y.city.isEmpty
            · rfl
            · exact absurd (by simp [hB2]) h1
          exact ⟨ht, hA, hB, by rw [hfst]; exact hco⟩
  · intro e he
    cases he

/-- Completeness of the grouping: a well-shaped trial of the processed list
whose city resolves lands in its country's bucket. -/
theorem groupByCountry_complete (ts : List Trial) :
    ∀ t ∈ ts, strTruthy t.memberId = true → t.city.isEmpty = false →
      ∀ co, getCountryFromCity t.city = some co →
        ∃ e ∈ groupByCountry ts, e.fst = co ∧ t ∈ e.snd := by
  unfold groupByCountry
  intro t ht htr hce co hco
  refine foldl_establish ts []
    (P := fun (t' : Trial) (mp : List (String × List Trial)) =>
      strTruthy t'.memberId = true → t'.city.isEmpty = false →
      ∀ co', getCountryFromCity t'.city = some co' →
        ∃ e ∈ mp, e.fst = co' ∧ t' ∈ e.snd) ?_ ?_ t ht htr hce co hco
  · intro acc a _ htr' hce' co' hco'
    have hcond : ¬((!strTruthy a.memberId || a.city.isEmpty) = true) := by
      simp [htr', hce']
    rw [if_neg hcond]
    simp only [hco']
    exact mapPush_self acc co' a
  · intro acc a b _ _ hp htr' hce' co' hco'
    rcases hp htr' hce' co' hco' with ⟨e, he, h1, h2⟩
    by_cases h1c : (!strTruthy a.memberId || a.city.isEmpty) = true
    · rw [if_pos h1c]
      exact ⟨e, he, h1, h2⟩
    · rw [if_neg h1c]
      cases hco2 : getCountryFromCity a.city with
      | none =>
        simp only [hco2]
        exact ⟨e, he, h1, h2⟩
      | some co2 =>
        simp only [hco2]
        rcases mapPush_preserve acc co2 a e he b h2 with ⟨e', he', hf, hy⟩
        exact ⟨e', he', hf.trans h1, hy⟩

theorem groupByCountry_replicate_aux (t : Trial) (co : String)
    (h1 : (!strTruthy t.memberId || t.city.isEmpty) = false)
    (hco : getCountryFromCity t.city = some co) :
    ∀ (m : Nat) (xs : List Trial),
      (List.replicate m t).foldl
        (fun acc t' =>
          if !strTruthy t'.memberId || t'.city.isEmpty then acc
          else
            match getCountryFromCity t'.city with
            | none => acc
            | some country => mapPush acc country t') [(co, xs)] =
        [(co, xs ++ List.replicate m t)]
  | 0, xs => by simp
  | m + 1, xs => by
    rw [List.replicate_succ, List.foldl_cons, if_neg (by simp [h1])]
    simp only [hco]
    have hpush : mapPush [(co, xs)] co t = [(co, xs ++ [t])] := by simp [mapPush]
    rw [hpush, groupByCountry_replicate_aux t co h1 hco m (xs ++ [t]), List.append_assoc]
    rfl

/-- Grouping a repeated well-shaped trial yields its country's single bucket. -/
theorem groupByCountry_replicate (t : Trial) (co : String)
    (h1 : (!strTruthy t.memberId || t.city.isEmpty) = false)
    (hco : getCountryFromCity t.city = some co) (n : Nat) :
    groupByCountry (List.replicate (n + 1) t) = [(co, List.replicate (n + 1) t)] := by
  unfold groupByCountry
  rw [List.replicate_succ, List.foldl_cons, if_neg (by simp [h1])]
  simp only [hco]
  have hpush : mapPush [] co t = [(co, [t])] := by simp [mapPush]
  rw [hpush, groupByCountry_replicate_aux t co h1 hco n [t]]
  rfl

/-! ## Country- and run-level lifting lemmas for the trial handler -/

theorem syncAll_store_eq (env : Env) (cp : String) (dr : Bool) (s : Store) :
    (syncAll env cp dr s).store = (syncGuests env cp dr (syncTrials env dr s).store).store := rfl

theorem processCountry_frame (env : Env) (dr : Bool) (acc : TrialsAcc)
    (e : String × List Trial) :
    (processCountry env dr acc e).store.trials = acc.store.trials ∧
    (processCountry env dr acc e).store.guests = acc.store.guests := by
  unfold processCountry
  dsimp only
  split
  · exact ⟨rfl, rfl⟩
  · refine foldl_preserve e.snd acc
      (Q := fun σ => σ.store.trials = acc.store.trials ∧ σ.store.guests = acc.store.guests)
      ?_ ⟨rfl, rfl⟩
    intro σ t _ hq
    have h := processTrial_frame (buildMembersMap (env.members e.fst))
      (buildPurchasesMap (env.products e.fst) env.now) dr σ t
    exact ⟨h.1.trans hq.1, h.2.1.trans hq.2⟩

theorem processCountry_errors (env : Env) (dr : Bool) (acc : TrialsAcc)
    (e : String × List Trial) :
    (processCountry env dr acc e).errors =
      acc.errors ++ (if env.hasConfig e.fst then []
        else ["No API config found for country: " ++ e.fst]) := by
  unfold processCountry
  dsimp only
  cases hc : env.hasConfig e.fst with
  | false =>
    rw [if_pos (by simp [hc]), if_neg (by simp [hc])]
  | true =>
    rw [if_neg (by simp [hc]), if_pos (by simp [hc]), List.append_nil]
    refine foldl_preserve e.snd acc (Q := fun σ => σ.errors = acc.errors) ?_ rfl
    intro σ t _ hq
    exact (processTrial_frame (buildMembersMap (env.members e.fst))
      (buildPurchasesMap (env.products e.fst) env.now) dr σ t).2.2.trans hq

theorem processCountry_conv_key (env : Env) (dr : Bool) (acc : TrialsAcc)
    (e : String × List Trial) :
    ∀ cv' ∈ (processCountry env dr acc e).store.conversions,
      (∃ cv ∈ acc.store.conversions, cv'.memberId = cv.memberId ∧ cv'.city = cv.city) ∨
      (∃ t ∈ e.snd, t.memberId = some cv'.memberId ∧ cv'.city = some t.city) := by
  unfold processCountry
  dsimp only
  split
  · exact fun cv' h => Or.inl ⟨cv', h, rfl, rfl⟩
  · refine foldl_preserve e.snd acc
      (Q := fun σ => ∀ cv' ∈ σ.store.conversions,
        (∃ cv ∈ acc.store.conversions, cv'.memberId = cv.memberId ∧ cv'.city = cv.city) ∨
        (∃ t ∈ e.snd, t.memberId = some cv'.memberId ∧ cv'.city = some t.city))
      ?_ (fun cv' h => Or.inl ⟨cv', h, rfl, rfl⟩)
    intro σ t ht hq cv' hcv'
    rcases processTrial_conv_key (buildMembersMap (env.members e.fst))
      (buildPurchasesMap (env.products e.fst) env.now) dr σ t cv' hcv' with
      ⟨cv, hcv, h1, h2⟩ | ⟨m, hm, h1, h2⟩
    · rcases hq cv hcv with ⟨cv₀, hcv₀, g1, g2⟩ | ⟨t₀, ht₀, g1, g2⟩
      · exact Or.inl ⟨cv₀, hcv₀, h1.trans g1, h2.trans g2⟩
      · exact Or.inr ⟨t₀, ht₀, by rw [h1]; exact g1, h2.trans g2⟩
    · exact Or.inr ⟨t, ht, by rw [h1]; exact hm, h2⟩

theorem processCountry_conv_persist (env : Env) (dr : Bool) (acc : TrialsAcc)
    (e : String × List Trial) :
    ∀ cv ∈ acc.store.conversions,
      ∃ cv' ∈ (processCountry env dr acc e).store.conversions,
        cv'.memberId = cv.memberId ∧ cv'.city = cv.city := by
  unfold processCountry
  dsimp only
  split
  · exact fun cv h => ⟨cv, h, rfl, rfl⟩
  · refine foldl_preserve e.snd acc
      (Q := fun σ => ∀ cv ∈ acc.store.conversions,
        ∃ cv' ∈ σ.store.conversions, cv'.memberId = cv.memberId ∧ cv'.city = cv.city)
      ?_ (fun cv h => ⟨cv, h, rfl, rfl⟩)
    intro σ t _ hq cv hcv
    rcases hq cv hcv with ⟨cv', hcv', h1, h2⟩
    rcases processTrial_conv_persist (buildMembersMap (env.members e.fst))
      (buildPurchasesMap (env.products e.fst) env.now) dr σ t cv' hcv' with
      ⟨cv'', hcv'', g1, g2⟩
    exact ⟨cv'', hcv'', g1.trans h1, g2.trans h2⟩

theorem syncTrials_frame (env : Env) (dr : Bool) (s : Store) :
    (syncTrials env dr s).store.trials = s.trials ∧
    (syncTrials env dr s).store.guests = s.guests := by
  unfold syncTrials
  dsimp only
  split
  · exact ⟨rfl, rfl⟩
  · refine foldl_preserve (groupByCountry ((trialsToCheckOf s).take maxTrials))
      ({ store := s, found := 0, created := 0, errors := [] } : TrialsAcc)
      (Q := fun σ => σ.store.trials = s.trials ∧ σ.store.guests = s.guests) ?_ ⟨rfl, rfl⟩
    intro σ e _ hq
    have h := processCountry_frame env dr σ e
    exact ⟨h.1.trans hq.1, h.2.trans hq.2⟩

/-- Every conversion after a trial-sync run either keeps the identity key of
a record of the starting store, or carries exactly the (memberId, city) of
one of the (at most 999) processed eligible trials. -/
theorem syncTrials_conv_keyed (env : Env) (dr : Bool) (s : Store) :
    ∀ cv' ∈ (syncTrials env dr s).store.conversions,
      (∃ cv ∈ s.conversions, cv'.memberId = cv.memberId ∧ cv'.city = cv.city) ∨
      (∃ t ∈ (trialsToCheckOf s).take maxTrials,
        t.memberId = some cv'.memberId ∧ cv'.city = some t.city) := by
  unfold syncTrials
  dsimp only
  split
  · exact fun cv' h => Or.inl ⟨cv', h, rfl, rfl⟩
  · refine foldl_preserve (groupByCountry ((trialsToCheckOf s).take maxTrials))
      ({ store := s, found := 0, created := 0, errors := [] } : TrialsAcc)
      (Q := fun σ => ∀ cv' ∈ σ.store.conversions,
        (∃ cv ∈ s.conversions, cv'.memberId = cv.memberId ∧ cv'.city = cv.city) ∨
        (∃ t ∈ (trialsToCheckOf s).take maxTrials,
          t.memberId = some cv'.memberId ∧ cv'.city = some t.city))
      ?_ (fun cv' h => Or.inl ⟨cv', h, rfl, rfl⟩)
    intro σ e he hq cv' hcv'
    rcases processCountry_conv_key env dr σ e cv' hcv' with ⟨cv, hcv, h1, h2⟩ | ⟨t, ht, h1, h2⟩
    · rcases hq cv hcv with ⟨cv₀, hcv₀, g1, g2⟩ | ⟨t₀, ht₀, g1, g2⟩
      · exact Or.inl ⟨cv₀, hcv₀, h1.trans g1, h2.trans g2⟩
      · exact Or.inr ⟨t₀, ht₀, by rw [h1]; exact g1, h2.trans g2⟩
    · exact Or.inr ⟨t, (groupByCountry_sound _ e he t ht).1, h1, h2⟩

theorem syncTrials_conv_persist (env : Env) (dr : Bool) (s : Store) :
    ∀ cv ∈ s.conversions,
      ∃ cv' ∈ (syncTrials env dr s).store.conversions,
        cv'.memberId = cv.memberId ∧ cv'.city = cv.city := by
  unfold syncTrials
  dsimp only
  split
  · exact fun cv h => ⟨cv, h, rfl, rfl⟩
  · refine foldl_preserve (groupByCountry ((trialsToCheckOf s).take maxTrials))
      ({ store := s, found := 0, created := 0, errors := [] } : TrialsAcc)
      (Q := fun σ => ∀ cv ∈ s.conversions,
        ∃ cv' ∈ σ.store.conversions, cv'.memberId = cv.memberId ∧ cv'.city = cv.city)
      ?_ (fun cv h => ⟨cv, h, rfl, rfl⟩)
    intro σ e _ hq cv hcv
    rcases hq cv hcv with ⟨cv', hcv', h1, h2⟩
    rcases processCountry_conv_persist env dr σ e cv' hcv' with ⟨cv'', hcv'', g1, g2⟩
    exact ⟨cv'', hcv'', g1.trans h1, g2.trans h2⟩

theorem foldl_processCountry_errors (env : Env) (dr : Bool) :
    ∀ (groups : List (String × List Trial)) (acc : TrialsAcc),
      (groups.foldl (processCountry env dr) acc).errors =
        acc.errors ++ (groups.filter (fun e => !env.hasConfig e.fst)).map
          (fun e => "No API config found for country: " ++ e.fst) := by
  intro groups
  induction groups with
  | nil => intro acc; simp
  | cons g gs ih =>
    intro acc
    rw [List.foldl_cons, ih, processCountry_errors]
    cases hc : env.hasConfig g.fst with
    | true => simp [List.filter_cons, hc]
    | false => simp [List.filter_cons, hc]

/-- The error list of a trial-sync run consists of exactly one message per
country group without API configuration — unresolvable candidates leave no
trace. -/
theorem syncTrials_errors (env : Env) (dr : Bool) (s : Store) :
    (syncTrials env dr s).errors =
      ((groupByCountry ((trialsToCheckOf s).take maxTrials)).filter
        (fun e => !env.hasConfig e.fst)).map
        (fun e => "No API config found for country: " ++ e.fst) := by
  unfold syncTrials
  dsimp only
  split
  · rename_i h
    rw [List.isEmpty_iff] at h
    simp [h, groupByCountry]
  · rw [foldl_processCountry_errors]
    simp

/-! ## Membership-priority (safety) lemmas -/

/-- A conversion record that can never witness a violated priority rule:
whenever its city resolves to a country whose `membersMap` knows its member
id, its membership type is terminal. -/
def convIsSafe (env : Env) (cv : Conversion) : Prop :=
  ∀ city country cd, cv.city = some city → getCountryFromCity city = some country →
    mapGet (buildMembersMap (env.members country)) cv.memberId = some cd →
    (cv.membershipType = "flex" ∨ cv.membershipType = "loyalty")

theorem processTrial_safe (env : Env) (co : String) (pm : List (String × PurchaseData))
    (dr : Bool) (acc : TrialsAcc) (t : Trial)
    (hco : getCountryFromCity t.city = some co) :
    ∀ cv' ∈ (processTrial (buildMembersMap (env.members co)) pm dr acc t).store.conversions,
      cv' ∈ acc.store.conversions ∨ convIsSafe env cv' := by
  cases htm : t.memberId with
  | none =>
    simp only [processTrial, htm]
    exact fun cv' h => Or.inl h
  | some m =>
    simp only [processTrial, htm]
    split
    · exact fun cv' h => Or.inl h
    · split
      · exact fun cv' h => Or.inl h
      · split
        · rename_i cd hcd
          split
          · exact fun cv' h => Or.inl h
          · split
            · split
              · -- in-place update: every touched record becomes terminal
                intro cv' hcv'
                rcases List.mem_map.mp hcv' with ⟨cv, hcv, heq⟩
                subst heq
                dsimp only
                split
                · refine Or.inr ?_
                  intro city country cd' _ _ _
                  exact (buildMembersMap_val (env.members co) m cd hcd).1
                · exact Or.inl hcv
              · intro cv' hcv'
                rcases List.mem_append.mp hcv' with h | h
                · exact Or.inl h
                · rw [List.mem_singleton] at h
                  subst h
                  refine Or.inr ?_
                  intro city country cd' _ _ _
                  exact (buildMembersMap_val (env.members co) m cd hcd).1
            · intro cv' hcv'
              rcases List.mem_append.mp hcv' with h | h
              · exact Or.inl h
              · rw [List.mem_singleton] at h
                subst h
                refine Or.inr ?_
                intro city country cd' _ _ _
                exact (buildMembersMap_val (env.members co) m cd hcd).1
        · rename_i hnone
          split
          · split
            · split
              · split
                · exact fun cv' h => Or.inl h
                · intro cv' hcv'
                  rcases List.mem_append.mp hcv' with h | h
                  · exact Or.inl h
                  · rw [List.mem_singleton] at h
                    subst h
                    refine Or.inr ?_
                    intro city country cd' h1 h2 h3
                    exfalso
                    cases h1
                    rw [hco] at h2
                    cases h2
                    rw [hnone] at h3
                    cases h3
              · exact fun cv' h => Or.inl h
            · exact fun cv' h => Or.inl h
          · exact fun cv' h => Or.inl h

theorem processCountry_safe (env : Env) (dr : Bool) (acc : TrialsAcc)
    (e : String × List Trial)
    (hsound : ∀ t ∈ e.snd, getCountryFromCity t.city = some e.fst) :
    ∀ cv' ∈ (processCountry env dr acc e).store.conversions,
      cv' ∈ acc.store.conversions ∨ convIsSafe env cv' := by
  unfold processCountry
  dsimp only
  split
  · exact fun cv' h => Or.inl h
  · refine foldl_preserve e.snd acc
      (Q := fun σ => ∀ cv' ∈ σ.store.conversions,
        cv' ∈ acc.store.conversions ∨ convIsSafe env cv')
      ?_ (fun cv' h => Or.inl h)
    intro σ t ht hq cv' hcv'
    rcases processTrial_safe env e.fst _ dr σ t (hsound t ht) cv' hcv' with h | h
    · exact hq cv' h
    · exact Or.inr h

/-- Every conversion a trial-sync run adds is "safe": if the country its city
resolves to knows its member id in `membersMap`, its type is terminal. -/
theorem syncTrials_safe (env : Env) (dr : Bool) (s : Store) :
    ∀ cv' ∈ (syncTrials env dr s).store.conversions,
      cv' ∈ s.conversions ∨ convIsSafe env cv' := by
  unfold syncTrials
  dsimp only
  split
  · exact fun cv' h => Or.inl h
  · refine foldl_preserve (groupByCountry ((trialsToCheckOf s).take maxTrials))
      ({ store := s, found := 0, created := 0, errors := [] } : TrialsAcc)
      (Q := fun σ => ∀ cv' ∈ σ.store.conversions,
        cv' ∈ s.conversions ∨ convIsSafe env cv')
      ?_ (fun cv' h => Or.inl h)
    intro σ e he hq cv' hcv'
    rcases processCountry_safe env dr σ e
      (fun t ht => (groupByCountry_sound _ e he t ht).2.2.2) cv' hcv' with h | h
    · exact hq cv' h
    · exact Or.inr h

/-! ## Guest-handler evolution lemmas -/

theorem processStep1_frame (env : Env) (country : String) (dr : Bool)
    (egMap : List (String × Guest)) (acc : Step1Acc) (e : String × Product) :
    (processStep1 env country dr egMap acc e).store.conversions = acc.store.conversions ∧
    (processStep1 env country dr egMap acc e).store.trials = acc.store.trials ∧
    (processStep1 env country dr egMap acc e).store.nextConvId = acc.store.nextConvId := by
  unfold processStep1
  dsimp only
  split
  · exact ⟨rfl, rfl, rfl⟩
  · split
    · exact ⟨rfl, rfl, rfl⟩
    · split
      · split
        · exact ⟨rfl, rfl, rfl⟩
        · exact ⟨rfl, rfl, rfl⟩
      · split
        · split
          · exact ⟨rfl, rfl, rfl⟩
          · exact ⟨rfl, rfl, rfl⟩
        · exact ⟨rfl, rfl, rfl⟩

theorem step1AccOf_frame (env : Env) (country : String) (dr : Bool) (s : Store) :
    (step1AccOf env country dr s).store.conversions = s.conversions ∧
    (step1AccOf env country dr s).store.trials = s.trials ∧
    (step1AccOf env country dr s).store.nextConvId = s.nextConvId := by
  unfold step1AccOf
  refine foldl_preserve (productsByMemberOf env country)
    ({ store := s, created := 0, updated := 0, toCreate := 0, toUpdate := 0 } : Step1Acc)
    (Q := fun σ => σ.store.conversions = s.conversions ∧ σ.store.trials = s.trials ∧
      σ.store.nextConvId = s.nextConvId) ?_ ⟨rfl, rfl, rfl⟩
  intro σ e _ hq
  have h := processStep1_frame env country dr (existingGuestsMapOf s.guests) σ e
  exact ⟨h.1.trans hq.1, h.2.1.trans hq.2.1, h.2.2.trans hq.2.2⟩

/-- Every conversion after a step-2 iteration is either already present or a
fresh record carrying the checked guest's member id and its
`cityForConversion`. -/
theorem processStep2_conv_key (env : Env) (mm : List (String × ContractData))
    (s1cm : List (String × Option String)) (tm : List (String × Trial)) (dr : Bool)
    (acc : Step2Acc) (g : GuestCheck) :
    ∀ cv' ∈ (processStep2 env mm s1cm tm dr acc g).store.conversions,
      cv' ∈ acc.store.conversions ∨
      (cv'.memberId = g.memberId ∧ cv'.city = truthyOrNone (cfcOf s1cm g) ∧
        ∃ cd, mapGet mm g.memberId = some cd ∧ cv'.memberSince = cd.startDate ∧
          cv'.membershipType = cd.membershipType) := by
  unfold processStep2
  split
  · exact fun cv' h => Or.inl h
  · rename_i cd hcd
    split
    · exact fun cv' h => Or.inl h
    · dsimp only
      by_cases hgc : strTruthy g.city = true
      · rw [if_pos hgc]
        split
        · intro cv' hcv'
          rcases List.mem_append.mp hcv' with h | h
          · exact Or.inl h
          · rw [List.mem_singleton] at h
            subst h
            exact Or.inr ⟨rfl, rfl, cd, hcd, rfl, rfl⟩
        · exact fun cv' h => Or.inl h
      · rw [if_neg hgc]
        cases hcm : truthyOrNone ((mapGet s1cm g.memberId).getD none) with
        | some c =>
          simp only [hcm]
          split
          · intro cv' hcv'
            rcases List.mem_append.mp hcv' with h | h
            · exact Or.inl h
            · rw [List.mem_singleton] at h
              subst h
              exact Or.inr ⟨rfl, rfl, cd, hcd, rfl, rfl⟩
          · exact fun cv' h => Or.inl h
        | none =>
          simp only [hcm]
          split
          · intro cv' hcv'
            rcases List.mem_append.mp hcv' with h | h
            · exact Or.inl h
            · rw [List.mem_singleton] at h
              subst h
              exact Or.inr ⟨rfl, rfl, cd, hcd, rfl, rfl⟩
          · exact fun cv' h => Or.inl h

/-! ## Concrete fixtures used by closed theorems -/

/-- An Austrian tenant whose platform reports one member (id 5) with an
active "Flex Basic" contract starting 2024-05-10, and no course products. -/
def envGuestAT : Env :=
  { members := fun co => if co == "AT" then [⟨5, [⟨some "2024-05-10", some "Flex Basic"⟩]⟩] else []
    products := fun _ => []
    hasConfig := fun co => co == "AT"
    now := "2025-01-01T00:00:00.000Z"
    dateTime := fun _ => 0
    isoOf := fun x => x }

/-- One unconverted Vienna guest with zero credits left, raw member id "5". -/
def guestVienna : Guest :=
  { memberId := "5", creditsLeft := 0, city := some "vienna",
    startDate := some "2024-01-01", packageSize := 10,
    convertedAt := none, updatedAt := "t0" }

def storeGuestVienna : Store :=
  { trials := []
    conversions := []
    guests := [guestVienna]
    nextConvId := 0 }

/-- A German tenant: member 7 has a "Loyalty Flex" contract; member 8 has a
qualifying 10-credit course purchase and no contract. -/
def envTrialsDE : Env :=
  { members := fun co => if co == "DE" then [⟨7, [⟨some "2024-04-01", some "Loyalty Flex"⟩]⟩] else []
    products := fun co => if co == "DE" then [⟨8, 10, 4, some "2024-03-01", some 1⟩] else []
    hasConfig := fun co => co == "DE"
    now := "2025-01-01T00:00:00.000Z"
    dateTime := fun _ => 0
    isoOf := fun x => x }

/-- One Berlin trial whose identity key ("7", berlin) already has a
`course`-stage conversion record, and nothing else. -/
def storeCourseStage : Store :=
  { trials := [{ memberId := some "7", city := "berlin" }]
    conversions := [{ id := 1, memberId := "7", city := some "berlin",
                      memberSince := "2024-03-01", membershipType := "course",
                      source := some "trial", hadCourseStep := false }]
    guests := []
    nextConvId := 2 }

/-- A Berlin trial and a Vienna guest sharing the raw member id "5". -/
def storeCrossTenant : Store :=
  { trials := [{ memberId := some "5", city := "berlin" }]
    conversions := []
    guests := [{ memberId := "5", creditsLeft := 0, city := some "vienna",
                 startDate := some "2024-01-01", packageSize := 10,
                 convertedAt := none, updatedAt := "t0" }]
    nextConvId := 0 }

/-- Two trials: one with the unknown city "atlantis", one resolvable Berlin
trial whose member (7) has a contract. -/
def storeUnknownCity : Store :=
  { trials := [{ memberId := some "1", city := "atlantis" },
               { memberId := some "7", city := "berlin" }]
    conversions := []
    guests := []
    nextConvId := 0 }

/-- The empty store. -/
def emptyStore : Store :=
  { trials := [], conversions := [], guests := [], nextConvId := 0 }

/-- A German tenant whose member 9 has both an active contract and a
qualifying course purchase. -/
def envBothDE : Env :=
  { members := fun co => if co == "DE" then [⟨9, [⟨some "2024-04-01", some "Premium"⟩]⟩] else []
    products := fun co => if co == "DE" then [⟨9, 16, 8, some "2024-02-01", some 1⟩] else []
    hasConfig := fun co => co == "DE"
    now := "2025-01-01T00:00:00.000Z"
    dateTime := fun _ => 0
    isoOf := fun x => x }

/-- One Berlin trial for the member with both facts. -/
def storeBothDE : Store :=
  { trials := [{ memberId := some "9", city := "berlin" }]
    conversions := [], guests := [], nextConvId := 0 }

/-- A Berlin trial for member 1, eligible 999 times over. -/
def trialRepeatDE : Trial := { memberId := some "1", city := "berlin" }

/-- A Berlin trial for member 2, the 1000th eligible candidate. -/
def trialDeferredDE : Trial := { memberId := some "2", city := "berlin" }

/-- A German tenant where members 1 and 2 both hold active contracts. -/
def envManyDE : Env :=
  { members := fun co => if co == "DE" then
      [⟨1, [⟨some "2024-04-01", some "Premium"⟩]⟩, ⟨2, [⟨some "2024-05-01", some "Premium"⟩]⟩]
    else []
    products := fun _ => []
    hasConfig := fun co => co == "DE"
    now := "2025-01-01T00:00:00.000Z"
    dateTime := fun _ => 0
    isoOf := fun x => x }

/-- 1000 eligible trials: 999 copies for member 1, then one for member 2. -/
def storeManyDE : Store :=
  { trials := List.replicate 999 trialRepeatDE ++ [trialDeferredDE]
    conversions := [], guests := [], nextConvId := 0 }

def convFirstDE : Conversion :=
  { id := 0, memberId := "1", city := some "berlin", memberSince := "2024-04-01",
    membershipType := "flex", source := some "trial", hadCourseStep := false }

def convSecondDE : Conversion :=
  { id := 1, memberId := "2", city := some "berlin", memberSince := "2024-05-01",
    membershipType := "flex", source := some "trial", hadCourseStep := false }

/-- The store after the first execute run: member 1 converted, member 2 deferred. -/
def storeManyAfter1 : Store :=
  { trials := storeManyDE.trials, conversions := [convFirstDE], guests := [], nextConvId := 1 }

/-- The store after the second execute run: member 2 converted as well. -/
def storeManyAfter2 : Store :=
  { trials := storeManyDE.trials, conversions := [convFirstDE, convSecondDE], guests := [],
    nextConvId := 2 }

theorem trialsToCheck_storeMany :
    trialsToCheckOf storeManyDE = List.replicate 999 trialRepeatDE ++ [trialDeferredDE] := by
  have h : trialsToCheckOf storeManyDE =
      ((List.replicate 999 trialRepeatDE ++ [trialDeferredDE]).filter
        (fun t => t.memberId.isSome)).filter
        (fun t =>
          match t.memberId with
          | none => false
          | some m =>
            if m.isEmpty || t.city.isEmpty then false
            else !(([] : List String).contains (keyOf m t.city))) := rfl
  rw [h, List.filter_append, filter_replicate_of_pos _ _ (by decide),
    List.filter_append, filter_replicate_of_pos _ _ (by decide)]
  rfl

theorem trialsToCheck_after1 :
    trialsToCheckOf storeManyAfter1 = [trialDeferredDE] := by
  have h : trialsToCheckOf storeManyAfter1 =
      ((List.replicate 999 trialRepeatDE ++ [trialDeferredDE]).filter
        (fun t => t.memberId.isSome)).filter
        (fun t =>
          match t.memberId with
          | none => false
          | some m =>
            if m.isEmpty || t.city.isEmpty then false
            else !((["1:berlin"] : List String).contains (keyOf m t.city))) := rfl
  rw [h, List.filter_append, filter_replicate_of_pos _ _ (by decide),
    List.filter_append, filter_replicate_of_neg _ _ (by decide)]
  rfl

theorem processCountry_storeMany :
    processCountry envManyDE false
      { store := storeManyDE, found := 0, created := 0, errors := [] }
      ("DE", List.replicate 999 trialRepeatDE) =
      { store := storeManyAfter1, found := 1, created := 1, errors := [] } := by
  unfold processCountry
  dsimp only
  rw [if_neg (by decide)]
  have h999 : List.replicate 999 trialRepeatDE =
      trialRepeatDE :: List.replicate 998 trialRepeatDE := rfl
  rw [h999, List.foldl_cons]
  have hstep1 : processTrial (buildMembersMap (envManyDE.members "DE"))
      (buildPurchasesMap (envManyDE.products "DE") envManyDE.now) false
      { store := storeManyDE, found := 0, created := 0, errors := [] } trialRepeatDE =
      { store := storeManyAfter1, found := 1, created := 1, errors := [] } := rfl
  rw [hstep1]
  rw [foldl_fix _ _ _ (fun x hx => by rw [List.eq_of_mem_replicate hx]; rfl)]

theorem syncTrials_storeMany :
    (syncTrials envManyDE false storeManyDE).store = storeManyAfter1 := by
  have hgrp : groupByCountry (List.replicate 999 trialRepeatDE) =
      [("DE", List.replicate 999 trialRepeatDE)] := by
    rw [(by norm_num : (999 : Nat) = 998 + 1)]
    exact groupByCountry_replicate trialRepeatDE "DE" (by decide) (by decide) 998
  have hne : (List.replicate 999 trialRepeatDE ++ [trialDeferredDE]).isEmpty = false := rfl
  unfold syncTrials
  dsimp only
  rw [trialsToCheck_storeMany]
  rw [if_neg (by rw [hne]; exact Bool.false_ne_true)]
  rw [List.take_left' (by rw [List.length_replicate]; rfl)]
  rw [hgrp, List.foldl_cons, List.foldl_nil, processCountry_storeMany]

theorem syncGuests_after1 :
    (syncGuests envManyDE "de" false storeManyAfter1).store = storeManyAfter1 := rfl

theorem processCountry_after1 :
    processCountry envManyDE false
      { store := storeManyAfter1, found := 0, created := 0, errors := [] }
      ("DE", [trialDeferredDE]) =
      { store := storeManyAfter2, found := 1, created := 1, errors := [] } := rfl

theorem syncTrials_after1 :
    (syncTrials envManyDE false storeManyAfter1).store = storeManyAfter2 := by
  unfold syncTrials
  dsimp only
  rw [trialsToCheck_after1]
  rw [if_neg (by decide)]
  have htake : ([trialDeferredDE].take maxTrials) = [trialDeferredDE] := rfl
  have hgrp : groupByCountry [trialDeferredDE] = [("DE", [trialDeferredDE])] := rfl
  rw [htake, hgrp, List.foldl_cons, List.foldl_nil, processCountry_after1]

theorem syncGuests_after2 :
    (syncGuests envManyDE "de" false storeManyAfter2).store = storeManyAfter2 := rfl

theorem syncAll_run1 :
    (syncAll envManyDE "de" false storeManyDE).store = storeManyAfter1 := by
  rw [syncAll_store_eq, syncTrials_storeMany, syncGuests_after1]

theorem syncAll_run2 :
    (syncAll envManyDE "de" false storeManyAfter1).store = storeManyAfter2 := by
  rw [syncAll_store_eq, syncTrials_after1, syncGuests_after2]

theorem storeMany_over_cap :
    maxTrials < (trialsToCheckOf storeManyDE).length := by
  rw [trialsToCheck_storeMany, List.length_append, List.length_replicate]
  decide

/-! ## Route-level lemmas -/

theorem executeFlag_iff (ep : Option String) : executeFlag ep = true ↔ ep = some "true" := by
  unfold executeFlag
  cases ep with
  | none => simp
  | some v => simp

theorem handleRequest_not_execute (env : Env) (tp cp ep : Option String) (s : Store)
    (h : ep ≠ some "true") : (handleRequest env tp cp ep s).store = s := by
  have he : executeFlag ep = false := by
    rcases hb : executeFlag ep with _ | _
    · rfl
    · exact absurd ((executeFlag_iff ep).mp hb) h
  unfold handleRequest
  rw [he]
  dsimp only
  split
  · rfl
  · split
    · rfl
    · split
      · exact syncTrials_dry env s
      · split
        · exact syncGuests_dry env _ s
        · exact syncAll_dry env _ s

/-! ## Claim theorems -/


/-! ## Idempotency of the trial handler (development for the cap-qualified rerun property) -/

/-- Membership in the `existingMemberCitySet`. -/
theorem existingKeys_mem_iff (convs : List Conversion) (k : String) :
    k ∈ existingKeys convs ↔
      ∃ cv ∈ convs, cv.memberId.isEmpty = false ∧ strTruthy cv.city = true ∧
        k = keyOf cv.memberId (cv.city.getD "") := by
  unfold existingKeys
  simp only [List.mem_map, List.mem_filter, Bool.and_eq_true, Bool.not_eq_true']
  constructor
  · rintro ⟨cv, ⟨hmem, h1, h2⟩, rfl⟩
    exact ⟨cv, hmem, h1, h2, rfl⟩
  · rintro ⟨cv, hmem, h1, h2, rfl⟩
    exact ⟨cv, ⟨hmem, h1, h2⟩, rfl⟩

/-- Membership in `trialsToCheck`. -/
theorem mem_trialsToCheckOf (s : Store) (t : Trial) :
    t ∈ trialsToCheckOf s ↔
      t ∈ s.trials ∧ ∃ m, t.memberId = some m ∧ m.isEmpty = false ∧ t.city.isEmpty = false ∧
        (existingKeys s.conversions).contains (keyOf m t.city) = false := by
  unfold trialsToCheckOf
  simp only [List.mem_filter, Option.isSome_iff_exists]
  constructor
  · rintro ⟨⟨hmem, m, hm⟩, hcond⟩
    simp only [hm] at hcond
    by_cases he : (m.isEmpty || t.city.isEmpty) = true
    · rw [if_pos he] at hcond
      cases hcond
    · rw [if_neg he] at hcond
      simp only [Bool.or_eq_true, not_or, Bool.not_eq_true] at he
      refine ⟨hmem, m, hm, he.1, he.2, ?_⟩
      simpa using hcond
  · rintro ⟨hmem, m, hm, h1, h2, h3⟩
    refine ⟨⟨hmem, m, hm⟩, ?_⟩
    simp only [hm]
    rw [if_neg (by simp [h1, h2])]
    simp only [Bool.not_eq_true']
    exact h3

/-- If a trial's key is not in the set, the per-trial conversion query over
those conversions is empty. -/
theorem filter_convMatches_eq_nil (convs : List Conversion) (m c : String)
    (hm : m.isEmpty = false) (hc : c.isEmpty = false)
    (hk : (existingKeys convs).contains (keyOf m c) = false) :
    convs.filter (convMatchesTrial m c) = [] := by
  rw [List.filter_eq_nil_iff]
  intro cv hcv hmatch
  unfold convMatchesTrial at hmatch
  simp only [Bool.and_eq_true, beq_iff_eq] at hmatch
  have hk' : keyOf m c ∈ existingKeys convs := by
    rw [existingKeys_mem_iff]
    refine ⟨cv, hcv, ?_, ?_, ?_⟩
    · rw [hmatch.1]; exact hm
    · rw [hmatch.2]; simp [strTruthy, hc]
    · rw [hmatch.1, hmatch.2]
      rfl
  have hk2 : (existingKeys convs).contains (keyOf m c) = true := List.elem_iff.mpr hk'
  rw [hk2] at hk
  cases hk

/-- Environment facts under which a trial candidate can never cause a
conversion write in its country. -/
def trialInertEnv (env : Env) (co m : String) : Prop :=
  mapGet (buildMembersMap (env.members co)) m = none ∧
  ∀ pd, mapGet (buildPurchasesMap (env.products co) env.now) m = some pd →
    pd.purchaseDate.isEmpty = true

/-- An inert candidate leaves the accumulator untouched when no conversion
matches its key. -/
theorem processTrial_inert_fix (env : Env) (co : String) (dr : Bool) (acc : TrialsAcc)
    (t : Trial) (m : String)
    (htm : t.memberId = some m)
    (hsh : (m.isEmpty || t.city.isEmpty) = false)
    (hfil : acc.store.conversions.filter (convMatchesTrial m t.city) = [])
    (hin : trialInertEnv env co m) :
    processTrial (buildMembersMap (env.members co))
      (buildPurchasesMap (env.products co) env.now) dr acc t = acc := by
  obtain ⟨hmm, hpm⟩ := hin
  simp only [processTrial, htm]
  rw [if_neg (by simp [hsh])]
  rw [hfil]
  simp only [List.any_nil, hmm]
  rw [if_neg (by simp)]
  rw [if_pos (by simp)]
  cases hp : mapGet (buildPurchasesMap (env.products co) env.now) m with
  | none => simp only [hp]
  | some pd =>
    simp only [hp]
    rw [if_neg (by simp [hpm pd hp])]

theorem hasKeyB_convUpdateById (s : Store) (i : Nat) (f : Conversion → Conversion)
    (hf : ∀ cv, (f cv).memberId = cv.memberId ∧ (f cv).city = cv.city)
    (m c : String) (h : hasKeyB s m c = true) :
    hasKeyB (convUpdateById s i f) m c = true := by
  rw [hasKeyB_iff] at h ⊢
  rcases h with ⟨cv, hcv, h1, h2⟩
  unfold convUpdateById
  dsimp only
  refine ⟨_, List.mem_map_of_mem _ hcv, ?_, ?_⟩
  · dsimp only
    split
    · rw [(hf _).1, h1]
    · rw [h1]
  · dsimp only
    split
    · rw [(hf _).2, h2]
    · rw [h2]

theorem hasKeyB_insert_self (s : Store) (m c : String) (ms mt : String)
    (src : Option String) (hcs : Bool) :
    hasKeyB (convInsert s m (some c) ms mt src hcs) m c = true := by
  unfold hasKeyB convInsert
  dsimp only
  rw [List.any_append]
  simp

/-- Identity keys persist through a per-trial step (Boolean form). -/
theorem processTrial_hasKey (mm : List (String × ContractData))
    (pm : List (String × PurchaseData)) (dr : Bool) (acc : TrialsAcc) (t : Trial)
    (m c : String) (h : hasKeyB acc.store m c = true) :
    hasKeyB (processTrial mm pm dr acc t).store m c = true := by
  rw [hasKeyB_iff] at h ⊢
  rcases h with ⟨cv, hcv, h1, h2⟩
  rcases processTrial_conv_persist mm pm dr acc t cv hcv with ⟨cv', hcv', g1, g2⟩
  exact ⟨cv', hcv', g1.trans h1, g2.trans h2⟩

theorem processCountry_hasKey (env : Env) (dr : Bool) (acc : TrialsAcc)
    (e : String × List Trial) (m c : String) (h : hasKeyB acc.store m c = true) :
    hasKeyB (processCountry env dr acc e).store m c = true := by
  rw [hasKeyB_iff] at h ⊢
  rcases h with ⟨cv, hcv, h1, h2⟩
  rcases processCountry_conv_persist env dr acc e cv hcv with ⟨cv', hcv', g1, g2⟩
  exact ⟨cv', hcv', g1.trans h1, g2.trans h2⟩

/-- Each processed trial either ends up with a conversion on its identity key
or its member is inert in this environment. -/
theorem processTrial_key_or_inert (env : Env) (co : String) (acc : TrialsAcc) (t : Trial)
    (m : String) (htm : t.memberId = some m) (hsh : (m.isEmpty || t.city.isEmpty) = false) :
    hasKeyB (processTrial (buildMembersMap (env.members co))
      (buildPurchasesMap (env.products co) env.now) false acc t).store m t.city = true ∨
    trialInertEnv env co m := by
  simp only [processTrial, htm]
  rw [if_neg (by simp [hsh])]
  by_cases hmem : (acc.store.conversions.filter (convMatchesTrial m t.city)).any
      (fun c => c.membershipType == "flex" || c.membershipType == "loyalty") = true
  · rw [if_pos hmem]
    left
    rcases List.any_eq_true.mp hmem with ⟨cv, hcvf, _⟩
    rcases List.mem_filter.mp hcvf with ⟨hcv, hmatch⟩
    unfold convMatchesTrial at hmatch
    simp only [Bool.and_eq_true, beq_iff_eq] at hmatch
    exact (hasKeyB_iff _ _ _).mpr ⟨cv, hcv, hmatch.1, hmatch.2⟩
  · rw [if_neg hmem]
    cases hcd : mapGet (buildMembersMap (env.members co)) m with
    | some cd =>
      simp only [hcd]
      rw [if_neg (by simp)]
      by_cases hhc : (acc.store.conversions.filter (convMatchesTrial m t.city)).any
          (fun c => c.membershipType == "course") = true
      · rw [if_pos hhc]
        cases hfind : (acc.store.conversions.filter (convMatchesTrial m t.city)).find?
            (fun c => c.memberId == m && c.membershipType == "course") with
        | some cc =>
          simp only [hfind]
          left
          have hccf := List.mem_of_find?_eq_some hfind
          rcases List.mem_filter.mp hccf with ⟨hcc, hccm⟩
          unfold convMatchesTrial at hccm
          simp only [Bool.and_eq_true, beq_iff_eq] at hccm
          refine hasKeyB_convUpdateById _ _ _ ?_ _ _ ?_
          · exact fun cv => ⟨rfl, rfl⟩
          · exact (hasKeyB_iff _ _ _).mpr ⟨cc, hcc, hccm.1, hccm.2⟩
        | none =>
          simp only [hfind]
          left
          exact hasKeyB_insert_self _ _ _ _ _ _ _
      · rw [if_neg hhc]
        left
        exact hasKeyB_insert_self _ _ _ _ _ _ _
    | none =>
      simp only [hcd]
      by_cases hhc : (acc.store.conversions.filter (convMatchesTrial m t.city)).any
          (fun c => c.membershipType == "course") = true
      · rw [if_neg (by simp [hhc])]
        left
        rcases List.any_eq_true.mp hhc with ⟨cv, hcvf, _⟩
        rcases List.mem_filter.mp hcvf with ⟨hcv, hmatch⟩
        unfold convMatchesTrial at hmatch
        simp only [Bool.and_eq_true, beq_iff_eq] at hmatch
        exact (hasKeyB_iff _ _ _).mpr ⟨cv, hcv, hmatch.1, hmatch.2⟩
      · rw [if_pos (by simp [hhc])]
        cases hp : mapGet (buildPurchasesMap (env.products co) env.now) m with
        | none =>
          simp only [hp]
          right
          exact ⟨hcd, fun pd h => by rw [hp] at h; cases h⟩
        | some pd =>
          simp only [hp]
          by_cases hpe : pd.purchaseDate.isEmpty = true
          · rw [if_neg (by simp [hpe])]
            right
            refine ⟨hcd, fun pd' h => ?_⟩
            rw [hp] at h
            cases h
            exact hpe
          · rw [if_pos (by simp [hpe])]
            left
            exact hasKeyB_insert_self _ _ _ _ _ _ _

/-- Establishment of key-or-inert across one country's bucket. -/
theorem processCountry_key_or_inert (env : Env) (acc : TrialsAcc)
    (e : String × List Trial) (hcfg : env.hasConfig e.fst = true) :
    ∀ t ∈ e.snd, ∀ m, t.memberId = some m → (m.isEmpty || t.city.isEmpty) = false →
      hasKeyB (processCountry env false acc e).store m t.city = true ∨
      trialInertEnv env e.fst m := by
  unfold processCountry
  dsimp only
  rw [if_neg (by simp [hcfg])]
  intro t ht m htm hsh
  refine foldl_establish e.snd acc
    (P := fun (t' : Trial) (σ : TrialsAcc) => ∀ m', t'.memberId = some m' →
      (m'.isEmpty || t'.city.isEmpty) = false →
      hasKeyB σ.store m' t'.city = true ∨ trialInertEnv env e.fst m') ?_ ?_ t ht m htm hsh
  · intro acc' a _ m' htm' hsh'
    exact processTrial_key_or_inert env e.fst acc' a m' htm' hsh'
  · intro acc' a b _ _ hp m' htm' hsh'
    rcases hp m' htm' hsh' with h | h
    · exact Or.inl (processTrial_hasKey _ _ _ acc' a m' b.city h)
    · exact Or.inr h

/-- After a full execute run, each processed eligible trial either has a
conversion on its key or its member is inert. -/
theorem syncTrials_key_or_inert (env : Env) (s : Store) :
    ∀ t ∈ (trialsToCheckOf s).take maxTrials, ∀ m, t.memberId = some m →
      (m.isEmpty || t.city.isEmpty) = false →
      ∀ co, getCountryFromCity t.city = some co → env.hasConfig co = true →
        hasKeyB (syncTrials env false s).store m t.city = true ∨ trialInertEnv env co m := by
  intro t ht m htm hsh co hco hcfg
  have hsh' := hsh
  simp only [Bool.or_eq_false_iff] at hsh'
  have hstr : strTruthy t.memberId = true := by
    rw [htm]
    simp [strTruthy, hsh'.1]
  rcases groupByCountry_complete ((trialsToCheckOf s).take maxTrials) t ht hstr hsh'.2 co hco
    with ⟨e, he, hfst, hte⟩
  unfold syncTrials
  dsimp only
  split
  · rename_i hemp
    rw [List.isEmpty_iff] at hemp
    rw [hemp] at ht
    cases ht
  · have hP := foldl_establish (f := processCountry env false)
      (groupByCountry ((trialsToCheckOf s).take maxTrials))
      ({ store := s, found := 0, created := 0, errors := [] } : TrialsAcc)
      (P := fun (e' : String × List Trial) (σ : TrialsAcc) =>
        env.hasConfig e'.fst = true → ∀ t' ∈ e'.snd, ∀ m', t'.memberId = some m' →
          (m'.isEmpty || t'.city.isEmpty) = false →
          hasKeyB σ.store m' t'.city = true ∨ trialInertEnv env e'.fst m')
      ?_ ?_ e he
    · dsimp only at hP ⊢
      rw [hfst] at hP
      exact hP hcfg t hte m htm hsh
    · intro acc' e' he' hcfg' t' ht' m' htm' hsh'
      exact processCountry_key_or_inert env acc' e' hcfg' t' ht' m' htm' hsh'
    · intro acc' a b _ _ hp hcfg' t' ht' m' htm' hsh'
      rcases hp hcfg' t' ht' m' htm' hsh' with h | h
      · exact Or.inl (processCountry_hasKey env false acc' a m' t'.city h)
      · exact Or.inr h

/-- When every eligible candidate is inert, the execute run leaves the store
untouched. -/
theorem syncTrials_noop_of_inert (env : Env) (s : Store)
    (H : ∀ t ∈ trialsToCheckOf s, ∀ m, t.memberId = some m →
      (m.isEmpty || t.city.isEmpty) = false →
      ∀ co, getCountryFromCity t.city = some co → env.hasConfig co = true →
        trialInertEnv env co m) :
    (syncTrials env false s).store = s := by
  unfold syncTrials
  dsimp only
  split
  · rfl
  · refine foldl_preserve (groupByCountry ((trialsToCheckOf s).take maxTrials))
      ({ store := s, found := 0, created := 0, errors := [] } : TrialsAcc)
      (Q := fun (σ : TrialsAcc) => σ.store = s) ?_ rfl
    intro σ e he hq
    unfold processCountry
    dsimp only
    split
    · exact hq
    · rename_i hcfg
      have hcfg2 : env.hasConfig e.fst = true := by
        cases hc2 : env.hasConfig e.fst
        · exact absurd (by simp [hc2]) hcfg
        · rfl
      refine foldl_preserve e.snd σ (Q := fun (σ' : TrialsAcc) => σ'.store = s) ?_ hq
      intro σ' t ht hq'
      have hsound := groupByCountry_sound _ e he t ht
      have htc : t ∈ trialsToCheckOf s := List.take_subset _ _ hsound.1
      rcases (mem_trialsToCheckOf s t).mp htc with ⟨hmem, m, htm, h1, h2, h3⟩
      have hin : trialInertEnv env e.fst m :=
        H t htc m htm (by simp [h1, h2]) e.fst hsound.2.2.2 hcfg2
      rw [processTrial_inert_fix env e.fst false σ' t m htm (by simp [h1, h2])
        (by rw [hq']; exact filter_convMatches_eq_nil _ _ _ h1 h2 h3) hin]
      exact hq'

/-- Existing identity keys survive any transformation that keeps, for every
record, a record with the same member id and city. -/
theorem existingKeys_mono (convs₁ convs₂ : List Conversion)
    (h : ∀ cv ∈ convs₁, ∃ cv' ∈ convs₂, cv'.memberId = cv.memberId ∧ cv'.city = cv.city)
    (k : String) (hk : k ∈ existingKeys convs₁) : k ∈ existingKeys convs₂ := by
  rw [existingKeys_mem_iff] at hk ⊢
  rcases hk with ⟨cv, hcv, h1, h2, rfl⟩
  rcases h cv hcv with ⟨cv', hcv', g1, g2⟩
  exact ⟨cv', hcv', by rw [g1]; exact h1, by rw [g2]; exact h2, by rw [g1, g2]⟩

/-- A step-2 iteration never touches trials and only appends conversions. -/
theorem processStep2_frame (env : Env) (mm : List (String × ContractData))
    (s1cm : List (String × Option String)) (tm : List (String × Trial)) (dr : Bool)
    (acc : Step2Acc) (g : GuestCheck) :
    (processStep2 env mm s1cm tm dr acc g).store.trials = acc.store.trials ∧
    ∀ cv ∈ acc.store.conversions, cv ∈ (processStep2 env mm s1cm tm dr acc g).store.conversions := by
  unfold processStep2
  split
  · exact ⟨rfl, fun cv h => h⟩
  · split
    · exact ⟨rfl, fun cv h => h⟩
    · dsimp only
      by_cases hgc : strTruthy g.city = true
      · rw [if_pos hgc]
        split
        · exact ⟨rfl, fun cv h => List.mem_append_left _ h⟩
        · exact ⟨rfl, fun cv h => h⟩
      · rw [if_neg hgc]
        cases hcm : truthyOrNone ((mapGet s1cm g.memberId).getD none) with
        | some c =>
          simp only [hcm]
          split
          · exact ⟨rfl, fun cv h => List.mem_append_left _ h⟩
          · exact ⟨rfl, fun cv h => h⟩
        | none =>
          simp only [hcm]
          split
          · exact ⟨rfl, fun cv h => List.mem_append_left _ h⟩
          · exact ⟨rfl, fun cv h => h⟩

/-- The guest handler never touches trials and never drops a conversion row. -/
theorem syncGuests_frame (env : Env) (cp : String) (dr : Bool) (s : Store) :
    (syncGuests env cp dr s).store.trials = s.trials ∧
    ∀ cv ∈ s.conversions, cv ∈ (syncGuests env cp dr s).store.conversions := by
  unfold syncGuests
  cases hcp : mapGet countryParamMap (strToLower cp) with
  | none => exact ⟨rfl, fun cv h => h⟩
  | some co =>
    simp only [hcp]
    split
    · exact ⟨rfl, fun cv h => h⟩
    · dsimp only
      have ha1 := step1AccOf_frame env co dr s
      refine foldl_preserve (guestChecksOf env co dr s)
        ({ store := (step1AccOf env co dr s).store, converted := 0, convCreated := 0,
           toConvert := 0 } : Step2Acc)
        (Q := fun (σ : Step2Acc) => σ.store.trials = s.trials ∧
          ∀ cv ∈ s.conversions, cv ∈ σ.store.conversions) ?_
        ⟨ha1.2.1, fun cv h => by rw [ha1.1]; exact h⟩
      intro σ g _ hq
      have h2 := processStep2_frame env (buildMembersMap (env.members co))
        (step1CityMapOf env co (existingGuestsMapOf s.guests))
        (trialsByMemberIdOf (step1AccOf env co dr s).store.trials) dr σ g
      exact ⟨h2.1.trans hq.1, fun cv h => h2.2 cv (hq.2 cv h)⟩

/-- After one full execute `syncAll` run within the cap, the trial handler
has nothing left to write: running it again returns the store unchanged. -/
theorem syncTrials_noop_after (env : Env) (cp : String) (s : Store)
    (hcap : (trialsToCheckOf s).length ≤ maxTrials) :
    (syncTrials env false (syncAll env cp false s).store).store =
      (syncAll env cp false s).store := by
  apply syncTrials_noop_of_inert
  intro t htc₂ m htm hsh co hco hcfg
  obtain ⟨hmem₁, m', htm', h1, h2, h3⟩ :=
    (mem_trialsToCheckOf (syncAll env cp false s).store t).mp htc₂
  rw [htm] at htm'
  cases htm'
  have hTr : (syncAll env cp false s).store.trials = s.trials := by
    rw [syncAll_store_eq]
    rw [(syncGuests_frame env cp false (syncTrials env false s).store).1,
      (syncTrials_frame env false s).1]
  have hkmono : ∀ k, k ∈ existingKeys (syncTrials env false s).store.conversions →
      k ∈ existingKeys (syncAll env cp false s).store.conversions := by
    intro k hk
    rw [syncAll_store_eq]
    exact existingKeys_mono _ _
      (fun cv h => ⟨cv, (syncGuests_frame env cp false (syncTrials env false s).store).2 cv h,
        rfl, rfl⟩) k hk
  have h3s : (existingKeys s.conversions).contains (keyOf m t.city) = false := by
    cases hc : (existingKeys s.conversions).contains (keyOf m t.city)
    · rfl
    · exfalso
      have hk0 : keyOf m t.city ∈ existingKeys s.conversions := by
        have h4 : (existingKeys s.conversions).elem (keyOf m t.city) = true := hc
        exact List.elem_iff.mp h4
      have hk1 : keyOf m t.city ∈ existingKeys (syncTrials env false s).store.conversions := by
        refine existingKeys_mono _ _ ?_ _ hk0
        intro cv h
        rcases syncTrials_conv_persist env false s cv h with ⟨cv', hcv', g1, g2⟩
        exact ⟨cv', hcv', g1, g2⟩
      have hk2 := hkmono _ hk1
      have hcontr : (existingKeys (syncAll env cp false s).store.conversions).contains
          (keyOf m t.city) = true := List.elem_iff.mpr hk2
      rw [hcontr] at h3
      cases h3
  have htc₀ : t ∈ trialsToCheckOf s :=
    (mem_trialsToCheckOf s t).mpr ⟨by rw [← hTr]; exact hmem₁, m, htm, h1, h2, h3s⟩
  have htake : t ∈ (trialsToCheckOf s).take maxTrials := by
    rw [List.take_of_length_le hcap]
    exact htc₀
  rcases syncTrials_key_or_inert env s t htake m htm hsh co hco hcfg with hkey | hin
  · exfalso
    have hk1 : keyOf m t.city ∈ existingKeys (syncTrials env false s).store.conversions := by
      rcases (hasKeyB_iff _ _ _).mp hkey with ⟨cv, hcv, g1, g2⟩
      rw [existingKeys_mem_iff]
      exact ⟨cv, hcv, by rw [g1]; exact h1, by rw [g2]; simp [strTruthy, h2], by rw [g1, g2]; rfl⟩
    have hk2 := hkmono _ hk1
    have hcontr : (existingKeys (syncAll env cp false s).store.conversions).contains
        (keyOf m t.city) = true := List.elem_iff.mpr hk2
    rw [hcontr] at h3
    cases h3
  · exact hin


/-! ## Idempotency of the guest handler -/

/-- Establish-with-precondition fold lemma: each element's own step consumes
a precondition `W` that holds initially and is preserved by the steps of the
other (R-related) elements; the established `P` is then framed. -/
theorem foldl_establish_pre {σ α : Type} {f : σ → α → σ} {P W : α → σ → Prop}
    {R : α → α → Prop} (l : List α) (init : σ)
    (hpw : l.Pairwise R)
    (hpre0 : ∀ a ∈ l, W a init)
    (hwframe : ∀ acc a b, R a b → W b acc → W b (f acc a))
    (hstep : ∀ acc a, a ∈ l → W a acc → P a (f acc a))
    (hframe : ∀ acc a b, R b a → P b acc → P b (f acc a)) :
    ∀ a ∈ l, P a (l.foldl f init) := by
  induction l generalizing init with
  | nil => intro a ha; cases ha
  | cons x xs ih =>
    intro a ha
    rw [List.foldl_cons]
    rcases List.mem_cons.mp ha with rfl | hmem
    · refine foldl_preserve xs (f init a) (fun acc b hb hq =>
        hframe acc b a ((List.pairwise_cons.mp hpw).1 b hb) hq) ?_
      exact hstep init a ha (hpre0 a ha)
    · exact ih (f init x)
        (List.pairwise_cons.mp hpw).2
        (fun b hb => hwframe init x b ((List.pairwise_cons.mp hpw).1 b hb)
          (hpre0 b (List.mem_cons_of_mem _ hb)))
        (fun acc b hb => hstep acc b (List.mem_cons_of_mem _ hb))
        a hmem

/-- The last guests row carrying a member id. -/
def lastRowOf (gs : List Guest) (m : String) : Option Guest :=
  (gs.filter (fun g => g.memberId == m)).getLast?

theorem lastRowOf_append_single (gs : List Guest) (g : Guest) (m : String) :
    lastRowOf (gs ++ [g]) m = if g.memberId = m then some g else lastRowOf gs m := by
  unfold lastRowOf
  rw [List.filter_append]
  by_cases h : g.memberId = m
  · rw [if_pos h]
    have : List.filter (fun g' => g'.memberId == m) [g] = [g] := by
      simp [List.filter_cons, h]
    rw [this, List.getLast?_concat]
  · rw [if_neg h]
    have : List.filter (fun g' => g'.memberId == m) [g] = [] := by
      simp [List.filter_cons, h]
    rw [this, List.append_nil]

/-- The JS `Map` of guest rows keyed by member id holds the LAST row of each
member id. -/
theorem egMap_eq_lastRow (gs : List Guest) (m : String) :
    mapGet (existingGuestsMapOf gs) m = lastRowOf gs m := by
  induction gs using List.reverseRecOn with
  | nil => rfl
  | append_singleton l g ih =>
    have h1 : existingGuestsMapOf (l ++ [g]) =
        mapSet (existingGuestsMapOf l) g.memberId g := by
      unfold existingGuestsMapOf
      rw [List.foldl_append, List.foldl_cons, List.foldl_nil]
    rw [h1, lastRowOf_append_single]
    by_cases h : g.memberId = m
    · rw [if_pos h, h, mapGet_mapSet_self]
    · rw [if_neg h, mapGet_mapSet_ne _ _ _ _ (fun he => h he.symm)]
      exact ih

theorem getLast?_mem_of_eq {α : Type} (l : List α) (a : α) (h : l.getLast? = some a) : a ∈ l := by
  rcases List.mem_getLast?_eq_getLast (by rw [Option.mem_def]; exact h) with ⟨hne, rfl⟩
  exact List.getLast_mem hne

theorem lastRowOf_mem (gs : List Guest) (m : String) (G : Guest)
    (h : lastRowOf gs m = some G) : G ∈ gs ∧ G.memberId = m := by
  unfold lastRowOf at h
  have hmem := getLast?_mem_of_eq _ _ h
  rcases List.mem_filter.mp hmem with ⟨h1, h2⟩
  exact ⟨h1, by simpa using h2⟩

theorem lastRowOf_eq_none_iff (gs : List Guest) (m : String) :
    lastRowOf gs m = none ↔ ∀ g ∈ gs, g.memberId ≠ m := by
  unfold lastRowOf
  rw [List.getLast?_eq_none_iff, List.filter_eq_nil_iff]
  constructor
  · intro h g hg
    have := h g hg
    simpa using this
  · intro h g hg
    simp [h g hg]

/-- Updating rows of one member id transforms exactly that id's last row. -/
theorem lastRowOf_map_update (gs : List Guest) (m' : String) (f : Guest → Guest)
    (hf : ∀ g, (f g).memberId = g.memberId) (m : String) :
    lastRowOf (gs.map (fun g => if g.memberId == m' then f g else g)) m =
      if m = m' then (lastRowOf gs m).map f else lastRowOf gs m := by
  unfold lastRowOf
  rw [List.filter_map]
  have hcomp : gs.filter ((fun g => g.memberId == m) ∘
      (fun g => if g.memberId == m' then f g else g)) =
      gs.filter (fun g => g.memberId == m) := by
    refine List.filter_congr ?_
    intro g _
    simp only [Function.comp_apply]
    by_cases h : g.memberId == m'
    · rw [if_pos h, hf]
    · rw [if_neg h]
  rw [hcomp]
  by_cases hm : m = m'
  · subst hm
    rw [if_pos rfl]
    have hmap : (gs.filter (fun g => g.memberId == m)).map
        (fun g => if g.memberId == m then f g else g) =
        (gs.filter (fun g => g.memberId == m)).map f := by
      refine List.map_congr_left ?_
      intro g hg
      rw [if_pos (List.mem_filter.mp hg).2]
    rw [hmap, List.getLast?_map]
  · rw [if_neg hm]
    have hmap : (gs.filter (fun g => g.memberId == m)).map
        (fun g => if g.memberId == m' then f g else g) =
        gs.filter (fun g => g.memberId == m) := by
      refine (List.map_congr_left ?_).trans (List.map_id _)
      intro g hg
      have : g.memberId = m := by simpa using (List.mem_filter.mp hg).2
      rw [if_neg (by simp [this, hm])]
      rfl
    rw [hmap]

theorem guestsUpdateBy_lastRow (s : Store) (m' : String) (f : Guest → Guest)
    (hf : ∀ g, (f g).memberId = g.memberId) (m : String) :
    lastRowOf (guestsUpdateBy s m' f).guests m =
      if m = m' then (lastRowOf s.guests m).map f else lastRowOf s.guests m :=
  lastRowOf_map_update s.guests m' f hf m

theorem guestsUpdateBy_id (s : Store) (m : String) (f : Guest → Guest)
    (h : ∀ g ∈ s.guests, g.memberId ≠ m) : guestsUpdateBy s m f = s := by
  unfold guestsUpdateBy
  have hmap : s.guests.map (fun g => if g.memberId == m then f g else g) = s.guests := by
    refine (List.map_congr_left ?_).trans (List.map_id _)
    intro g hg
    rw [if_neg (by simp [h g hg])]
    rfl
  rw [hmap]

/-- Every entry of `guestsToCheck` with a falsy city also has a falsy
step-1-city-map entry (so step 2's city-update branch never fires). -/
theorem guestChecks_compat (env : Env) (co : String) (dr : Bool) (s : Store) :
    ∀ g ∈ guestChecksOf env co dr s, strTruthy g.city = false →
      truthyOrNone ((mapGet (step1CityMapOf env co (existingGuestsMapOf s.guests))
        g.memberId).getD none) = none := by
  intro g hg hgc
  unfold guestChecksOf at hg
  rcases List.mem_append.mp hg with h | h
  · unfold checksFromStep1 at h
    rcases List.mem_filterMap.mp h with ⟨e, he, hf⟩
    dsimp only at hf
    split at hf
    · cases hf
      dsimp only at hgc ⊢
      rw [truthyOrNone_eq_none_iff]
      by_cases hA : strTruthy ((mapGet (step1CityMapOf env co (existingGuestsMapOf s.guests))
          e.fst).getD none) = true
      · exfalso
        unfold jsOrStr at hgc
        rw [if_pos hA] at hgc
        rw [hA] at hgc
        cases hgc
      · simpa using hA
    · cases hf
  · rcases List.mem_map.mp h with ⟨G, hG, rfl⟩
    rcases List.mem_filter.mp hG with ⟨_, hcond⟩
    simp only [Bool.and_eq_true] at hcond
    dsimp only at hgc
    rw [hcond.1.2] at hgc
    cases hgc

/-- `processStep2` on an execute run, with the dead city-update branch
eliminated. -/
theorem processStep2_char (env : Env) (mm : List (String × ContractData))
    (s1cm : List (String × Option String)) (tm : List (String × Trial))
    (acc : Step2Acc) (g : GuestCheck)
    (hcompat : strTruthy g.city = false →
      truthyOrNone ((mapGet s1cm g.memberId).getD none) = none) :
    processStep2 env mm s1cm tm false acc g =
      match mapGet mm g.memberId with
      | none => acc
      | some cd =>
        let st := guestsUpdateBy acc.store g.memberId
          (fun gu => { gu with convertedAt := some cd.startDate, updatedAt := env.now })
        if (st.conversions.filter (guestConvMatches g.memberId (cfcOf s1cm g))).isEmpty then
          { store := convInsert st g.memberId (truthyOrNone (cfcOf s1cm g)) cd.startDate
              cd.membershipType
              (some (if (mapGet tm g.memberId).isSome then "trial" else "guest"))
              (mapGet tm g.memberId).isSome,
            converted := acc.converted + 1, convCreated := acc.convCreated + 1,
            toConvert := acc.toConvert }
        else { acc with store := st, converted := acc.converted + 1 } := by
  unfold processStep2
  cases hcd : mapGet mm g.memberId with
  | none => rfl
  | some cd =>
    dsimp only
    rw [if_neg (by simp)]
    by_cases hgc : strTruthy g.city = true
    · rw [if_pos hgc]
    · rw [if_neg hgc]
      rw [hcompat (by simpa using hgc)]

theorem convInsert_guests (s : Store) (m : String) (c : Option String) (ms mt : String)
    (src : Option String) (hcs : Bool) : (convInsert s m c ms mt src hcs).guests = s.guests := rfl

/-- Equality of guest rows up to `convertedAt` and `updatedAt`. -/
def sameCore (a b : Guest) : Prop :=
  b.memberId = a.memberId ∧ b.creditsLeft = a.creditsLeft ∧ b.city = a.city ∧
  b.startDate = a.startDate ∧ b.packageSize = a.packageSize

def coreEqO : Option Guest → Option Guest → Prop
  | none, none => True
  | some a, some b => sameCore a b
  | _, _ => False

theorem coreEqO_map (a b : Option Guest) (h : coreEqO a b) (f : Guest → Guest)
    (hf : ∀ g, sameCore g (f g)) : coreEqO a (b.map f) := by
  cases a with
  | none => cases b with
    | none => trivial
    | some gb => cases h
  | some ga => cases b with
    | none => cases h
    | some gb =>
      have h2 := hf gb
      exact ⟨h2.1.trans h.1, h2.2.1.trans h.2.1, h2.2.2.1.trans h.2.2.1,
        h2.2.2.2.1.trans h.2.2.2.1, h2.2.2.2.2.trans h.2.2.2.2⟩

/-- Step 2 of an execute run only rewrites `convertedAt`/`updatedAt` of guest
rows: each member's last row keeps its core. -/
theorem step2_fold_core (env : Env) (mm : List (String × ContractData))
    (s1cm : List (String × Option String)) (tm : List (String × Trial))
    (checks : List GuestCheck)
    (hcompat : ∀ g ∈ checks, strTruthy g.city = false →
      truthyOrNone ((mapGet s1cm g.memberId).getD none) = none)
    (init : Step2Acc) :
    ∀ m, coreEqO (lastRowOf init.store.guests m)
      (lastRowOf (checks.foldl (processStep2 env mm s1cm tm false) init).store.guests m) := by
  refine foldl_preserve checks init (Q := fun (σ : Step2Acc) => ∀ m,
    coreEqO (lastRowOf init.store.guests m) (lastRowOf σ.store.guests m)) ?_ (fun m => by
      cases h : lastRowOf init.store.guests m with
      | none => trivial
      | some G => exact ⟨rfl, rfl, rfl, rfl, rfl⟩)
  intro σ g hgmem hq m
  rw [processStep2_char env mm s1cm tm σ g (hcompat g hgmem)]
  cases hcd : mapGet mm g.memberId with
  | none => exact hq m
  | some cd =>
    dsimp only
    have hrow := guestsUpdateBy_lastRow σ.store g.memberId
      (fun gu => { gu with convertedAt := some cd.startDate, updatedAt := env.now })
      (fun _ => rfl) m
    split
    · rw [convInsert_guests, hrow]
      by_cases hm : m = g.memberId
      · rw [if_pos hm]
        exact coreEqO_map _ _ (hq m) _ (fun _ => ⟨rfl, rfl, rfl, rfl, rfl⟩)
      · rw [if_neg hm]
        exact hq m
    · dsimp only
      rw [hrow]
      by_cases hm : m = g.memberId
      · rw [if_pos hm]
        exact coreEqO_map _ _ (hq m) _ (fun _ => ⟨rfl, rfl, rfl, rfl, rfl⟩)
      · rw [if_neg hm]
        exact hq m

theorem guestsUpdateBy_conversions (s : Store) (m : String) (f : Guest → Guest) :
    (guestsUpdateBy s m f).conversions = s.conversions := rfl

/-- After step 2 processes a check that has an active membership, every guest
row of that member carries a truthy `convertedAt`. -/
theorem step2_fold_converted (env : Env) (mm : List (String × ContractData))
    (s1cm : List (String × Option String)) (tm : List (String × Trial))
    (checks : List GuestCheck)
    (hcompat : ∀ g ∈ checks, strTruthy g.city = false →
      truthyOrNone ((mapGet s1cm g.memberId).getD none) = none)
    (hval : ∀ k cd, mapGet mm k = some cd → cd.startDate.isEmpty = false)
    (init : Step2Acc) :
    ∀ g₁ ∈ checks, ∀ cd, mapGet mm g₁.memberId = some cd →
      ∀ G ∈ (checks.foldl (processStep2 env mm s1cm tm false) init).store.guests,
        G.memberId = g₁.memberId → strTruthy G.convertedAt = true := by
  intro g₁ hg₁ cd hcd
  refine foldl_establish checks init
    (P := fun (g' : GuestCheck) (σ : Step2Acc) => ∀ cd', mapGet mm g'.memberId = some cd' →
      ∀ G ∈ σ.store.guests, G.memberId = g'.memberId → strTruthy G.convertedAt = true)
    ?_ ?_ g₁ hg₁ cd hcd
  · intro σ g hg cd' hcd' G hG hGm
    rw [processStep2_char env mm s1cm tm σ g (hcompat g hg)] at hG
    simp only [hcd'] at hG
    have hG' : G ∈ (guestsUpdateBy σ.store g.memberId
        (fun gu => { gu with convertedAt := some cd'.startDate, updatedAt := env.now })).guests := by
      split at hG
      · rw [convInsert_guests] at hG
        exact hG
      · exact hG
    rcases List.mem_map.mp hG' with ⟨G₀, hG₀, rfl⟩
    by_cases h0 : (G₀.memberId == g.memberId) = true
    · rw [if_pos h0]
      simp [strTruthy, hval _ cd' hcd']
    · rw [if_neg h0] at hGm ⊢
      exact absurd (by simp [hGm]) h0
  · intro σ a b ha hb hp cd' hcd' G hG hGm
    rw [processStep2_char env mm s1cm tm σ a (hcompat a ha)] at hG
    cases hcda : mapGet mm a.memberId with
    | none =>
      simp only [hcda] at hG
      exact hp cd' hcd' G hG hGm
    | some cda =>
      simp only [hcda] at hG
      have hG' : G ∈ (guestsUpdateBy σ.store a.memberId
          (fun gu => { gu with convertedAt := some cda.startDate, updatedAt := env.now })).guests := by
        split at hG
        · rw [convInsert_guests] at hG
          exact hG
        · exact hG
      rcases List.mem_map.mp hG' with ⟨G₀, hG₀, rfl⟩
      by_cases h0 : (G₀.memberId == a.memberId) = true
      · rw [if_pos h0]
        simp [strTruthy, hval _ cda hcda]
      · rw [if_neg h0] at hGm ⊢
        exact hp cd' hcd' G₀ hG₀ hGm

/-- Every guest row after step 2 descends from a pre-step-2 row with the same
member id and city; rows still unconverted are untouched. -/
theorem step2_fold_preimage (env : Env) (mm : List (String × ContractData))
    (s1cm : List (String × Option String)) (tm : List (String × Trial))
    (checks : List GuestCheck)
    (hcompat : ∀ g ∈ checks, strTruthy g.city = false →
      truthyOrNone ((mapGet s1cm g.memberId).getD none) = none)
    (hval : ∀ k cd, mapGet mm k = some cd → cd.startDate.isEmpty = false)
    (init : Step2Acc) :
    ∀ G ∈ (checks.foldl (processStep2 env mm s1cm tm false) init).store.guests,
      ∃ G₁ ∈ init.store.guests, G₁.memberId = G.memberId ∧ G₁.city = G.city ∧
        (strTruthy G.convertedAt = false → G₁ = G) := by
  refine foldl_preserve checks init (Q := fun (σ : Step2Acc) =>
    ∀ G ∈ σ.store.guests, ∃ G₁ ∈ init.store.guests, G₁.memberId = G.memberId ∧
      G₁.city = G.city ∧ (strTruthy G.convertedAt = false → G₁ = G)) ?_
    (fun G hG => ⟨G, hG, rfl, rfl, fun _ => rfl⟩)
  intro σ g hg hq G hG
  rw [processStep2_char env mm s1cm tm σ g (hcompat g hg)] at hG
  cases hcd : mapGet mm g.memberId with
  | none =>
    simp only [hcd] at hG
    exact hq G hG
  | some cd =>
    simp only [hcd] at hG
    have hG' : G ∈ (guestsUpdateBy σ.store g.memberId
        (fun gu => { gu with convertedAt := some cd.startDate, updatedAt := env.now })).guests := by
      split at hG
      · rw [convInsert_guests] at hG
        exact hG
      · exact hG
    rcases List.mem_map.mp hG' with ⟨G₀, hG₀, rfl⟩
    by_cases h0 : (G₀.memberId == g.memberId) = true
    · rw [if_pos h0]
      rcases hq G₀ hG₀ with ⟨G₁, hG₁, hm, hc, _⟩
      refine ⟨G₁, hG₁, hm, hc, fun hfalse => ?_⟩
      simp [strTruthy, hval _ cd hcd] at hfalse
    · rw [if_neg h0]
      exact hq G₀ hG₀

theorem cfcOf_some_nonempty (s1cm : List (String × Option String)) (g : GuestCheck)
    (c : String) (h : cfcOf s1cm g = some c) : c.isEmpty = false := by
  unfold cfcOf at h
  by_cases hgc : strTruthy g.city = true
  · rw [if_pos hgc] at h
    rw [h] at hgc
    simpa [strTruthy] using hgc
  · rw [if_neg hgc] at h
    unfold truthyOrNone at h
    split at h
    · rename_i hstr
      rw [h] at hstr
      simpa [strTruthy] using hstr
    · cases h

/-- After step 2 processes a check with an active membership, a terminal
conversion record matching that check's key exists. -/
theorem step2_fold_convmatch (env : Env) (mm : List (String × ContractData))
    (s1cm : List (String × Option String)) (tm : List (String × Trial))
    (checks : List GuestCheck)
    (hcompat : ∀ g ∈ checks, strTruthy g.city = false →
      truthyOrNone ((mapGet s1cm g.memberId).getD none) = none)
    (htype : ∀ k cd, mapGet mm k = some cd →
      cd.membershipType = "flex" ∨ cd.membershipType = "loyalty")
    (init : Step2Acc) :
    ∀ g₁ ∈ checks, ∀ cd, mapGet mm g₁.memberId = some cd →
      ∃ cv ∈ (checks.foldl (processStep2 env mm s1cm tm false) init).store.conversions,
        guestConvMatches g₁.memberId (cfcOf s1cm g₁) cv = true := by
  intro g₁ hg₁ cd hcd
  refine foldl_establish checks init
    (P := fun (g' : GuestCheck) (σ : Step2Acc) => ∀ cd', mapGet mm g'.memberId = some cd' →
      ∃ cv ∈ σ.store.conversions,
        guestConvMatches g'.memberId (cfcOf s1cm g') cv = true) ?_ ?_ g₁ hg₁ cd hcd
  · intro σ g hg cd' hcd'
    rw [processStep2_char env mm s1cm tm σ g (hcompat g hg)]
    simp only [hcd']
    split
    · refine ⟨_, List.mem_append_right _ (List.mem_singleton_self _), ?_⟩
      unfold guestConvMatches
      dsimp only
      rw [Bool.and_eq_true, Bool.and_eq_true]
      refine ⟨⟨by simp, ?_⟩, ?_⟩
      · rcases htype _ cd' hcd' with h | h <;> simp [h]
      · cases hκ : cfcOf s1cm g with
        | none => simp [truthyOrNone, strTruthy]
        | some ct =>
          have hne := cfcOf_some_nonempty s1cm g ct hκ
          simp [truthyOrNone, strTruthy, hne]
    · rename_i hne
      have hnil : (guestsUpdateBy σ.store g.memberId
          (fun gu => { gu with convertedAt := some cd'.startDate, updatedAt := env.now })).conversions.filter
          (guestConvMatches g.memberId (cfcOf s1cm g)) ≠ [] := by
        intro hnil
        rw [hnil] at hne
        exact hne rfl
      rcases List.exists_mem_of_ne_nil _ hnil with ⟨cv, hcv⟩
      rcases List.mem_filter.mp hcv with ⟨hcvm, hpred⟩
      exact ⟨cv, hcvm, hpred⟩
  · intro σ a b ha hb hp cd' hcd'
    rcases hp cd' hcd' with ⟨cv, hcv, hpred⟩
    exact ⟨cv, (processStep2_frame env mm s1cm tm false σ a).2 cv hcv, hpred⟩

theorem natMapGet_val_nonempty (tbl : List (Nat × String))
    (hall : ∀ p ∈ tbl, p.snd.isEmpty = false) (k : Nat) (v : String)
    (h : natMapGet tbl k = some v) : v.isEmpty = false :=
  hall (k, v) (natMapGet_mem tbl k v h)

/-- Every city in the home-club tables is a nonempty label. -/
theorem getCityFromHomeClubId_nonempty (co : String) (h : Option Nat) (c : String)
    (hc : getCityFromHomeClubId co h = some c) : c.isEmpty = false := by
  unfold getCityFromHomeClubId at hc
  cases h with
  | none => cases hc
  | some hh =>
    dsimp only at hc
    by_cases h0 : (hh == 0) = true
    · rw [if_pos h0] at hc
      cases hc
    · rw [if_neg h0] at hc
      cases hm : mapGet homeClubIdToCity co with
      | none =>
        simp only [hm] at hc
        cases hc
      | some tbl =>
        simp only [hm] at hc
        have hmem := mapGet_mem homeClubIdToCity co tbl hm
        simp only [homeClubIdToCity, List.mem_cons, List.not_mem_nil, or_false] at hmem
        rcases hmem with h1 | h1 | h1 | h1 <;>
        · rw [Prod.mk.injEq] at h1
          rcases h1 with ⟨h1a, h1b⟩
          subst h1b
          exact natMapGet_val_nonempty _ (by decide) _ _ hc

/-- A resolved step-1 city label is never the empty string. -/
theorem determineCity_nonempty (co : String) (h : Option Nat) (ec : Option String) (c : String)
    (hc : determineCity co h ec = some c) : c.isEmpty = false := by
  unfold determineCity at hc
  dsimp only at hc
  split at hc
  · rename_i c0 heq
    cases hc
    cases h with
    | none => cases heq
    | some hh =>
      dsimp only at heq
      by_cases h0 : (hh == 0) = true
      · rw [if_pos h0] at heq
        cases heq
      · rw [if_neg h0] at heq
        exact getCityFromHomeClubId_nonempty co (some hh) c heq
  · split at hc
    · rename_i gc
      split at hc
      · cases hc
      · rename_i hgce
        split at hc
        · cases hc
          simpa using hgce
        · cases hc
    · cases hc

theorem productsByMember_keysDistinct (env : Env) (co : String) :
    keysDistinct (productsByMemberOf env co) := by
  unfold productsByMemberOf
  refine foldl_preserve (env.products co) []
    (Q := fun (acc : List (String × Product)) => keysDistinct acc) ?_ (by simp [keysDistinct])
  intro acc p _ hq
  dsimp only
  cases hg : mapGet acc (toString p.memberId) with
  | none =>
    simp only [hg]
    exact mapSet_keysDistinct _ _ _ hq
  | some ex =>
    simp only [hg]
    repeat' split
    all_goals first
      | exact mapSet_keysDistinct _ _ _ hq
      | exact hq

/-- The exact condition under which a step-1 upsert writes (execute mode). -/
def s1Writes (country : String) (egMap : List (String × Guest)) (e : String × Product) : Bool :=
  match determineCity country e.snd.homeClubId ((mapGet egMap e.fst).bind Guest.city) with
  | none => false
  | some c =>
    if getCountryFromCity c != some country then false
    else
      match mapGet egMap e.fst with
      | none => true
      | some g =>
        (g.creditsLeft != e.snd.currentQuantity) || (g.packageSize != e.snd.initialQuantity) ||
          !strTruthy g.city

theorem processStep1_of_not_writes (env : Env) (country : String) (dr : Bool)
    (egMap : List (String × Guest)) (acc : Step1Acc) (e : String × Product)
    (h : s1Writes country egMap e = false) :
    processStep1 env country dr egMap acc e = acc := by
  unfold processStep1
  unfold s1Writes at h
  dsimp only at h ⊢
  cases hdc : determineCity country e.snd.homeClubId ((mapGet egMap e.fst).bind Guest.city) with
  | none => simp only [hdc]
  | some c =>
    simp only [hdc] at h ⊢
    by_cases hcm : (getCountryFromCity c != some country) = true
    · rw [if_pos hcm]
    · rw [if_neg hcm] at h ⊢
      cases heg : mapGet egMap e.fst with
      | none =>
        simp only [heg] at h
        cases h
      | some g =>
        simp only [heg] at h ⊢
        rw [if_neg (by rw [h]; exact Bool.false_ne_true)]

/-- A step-1 upsert for one member never moves another member's last row. -/
theorem processStep1_lastRow_other (env : Env) (country : String) (dr : Bool)
    (egMap : List (String × Guest)) (acc : Step1Acc) (e : String × Product) (m : String)
    (hne : e.fst ≠ m) :
    lastRowOf (processStep1 env country dr egMap acc e).store.guests m =
      lastRowOf acc.store.guests m := by
  unfold processStep1
  dsimp only
  cases hdc : determineCity country e.snd.homeClubId ((mapGet egMap e.fst).bind Guest.city) with
  | none => simp only [hdc]
  | some c =>
    simp only [hdc]
    by_cases hcm : (getCountryFromCity c != some country) = true
    · rw [if_pos hcm]
    · rw [if_neg hcm]
      cases heg : mapGet egMap e.fst with
      | none =>
        simp only [heg]
        cases dr with
        | true => rfl
        | false =>
          rw [if_neg (by simp)]
          dsimp only
          unfold guestInsert
          dsimp only
          rw [lastRowOf_append_single, if_neg hne]
      | some g =>
        simp only [heg]
        split
        · cases dr with
          | true => rfl
          | false =>
            rw [if_neg (by simp)]
            dsimp only
            rw [guestsUpdateBy_lastRow acc.store e.fst (fun gu => { gu with creditsLeft := e.snd.currentQuantity, packageSize := e.snd.initialQuantity, city := some c, updatedAt := env.now }) (fun _ => rfl) m, if_neg (fun hh => hne hh.symm)]
        · rfl

theorem processStep1_insert_eq (env : Env) (country : String)
    (egMap : List (String × Guest)) (acc : Step1Acc) (e : String × Product) (c : String)
    (hdc : determineCity country e.snd.homeClubId ((mapGet egMap e.fst).bind Guest.city) = some c)
    (hcm : (getCountryFromCity c != some country) = false)
    (heg : mapGet egMap e.fst = none) :
    processStep1 env country false egMap acc e =
      { acc with
        store := guestInsert acc.store
          { memberId := e.fst, creditsLeft := e.snd.currentQuantity, city := some c,
            startDate := some (if strTruthy e.snd.purchaseDate then
              env.isoOf (e.snd.purchaseDate.getD "") else env.now),
            packageSize := e.snd.initialQuantity, convertedAt := none, updatedAt := env.now }
        created := acc.created + 1 } := by
  unfold processStep1
  dsimp only
  simp only [hdc]
  rw [if_neg (by rw [hcm]; exact Bool.false_ne_true)]
  simp only [heg]
  rw [if_neg (by simp)]

theorem processStep1_update_eq (env : Env) (country : String)
    (egMap : List (String × Guest)) (acc : Step1Acc) (e : String × Product) (c : String)
    (g : Guest)
    (hdc : determineCity country e.snd.homeClubId ((mapGet egMap e.fst).bind Guest.city) = some c)
    (hcm : (getCountryFromCity c != some country) = false)
    (heg : mapGet egMap e.fst = some g)
    (hnu : ((g.creditsLeft != e.snd.currentQuantity) || (g.packageSize != e.snd.initialQuantity) ||
      !strTruthy g.city) = true) :
    processStep1 env country false egMap acc e =
      { acc with
        store := guestsUpdateBy acc.store e.fst
          (fun gu => { gu with creditsLeft := e.snd.currentQuantity, packageSize := e.snd.initialQuantity, city := some c, updatedAt := env.now })
        updated := acc.updated + 1 } := by
  unfold processStep1
  dsimp only
  simp only [hdc]
  rw [if_neg (by rw [hcm]; exact Bool.false_ne_true)]
  simp only [heg]
  rw [if_pos hnu]
  rw [if_neg (by simp)]

/-- The fields step 1 guarantees on a member's final row after it wrote. -/
def GoodRow (p : Product) (G : Guest) : Prop :=
  G.creditsLeft = p.currentQuantity ∧ G.packageSize = p.initialQuantity ∧ strTruthy G.city = true

/-- Last-row outcome of step 1, per product member: a write leaves a row
matching the product, no write leaves the pre-run row. -/
theorem step1_outcome (env : Env) (co : String) (s : Store) :
    ∀ e ∈ productsByMemberOf env co,
      (s1Writes co (existingGuestsMapOf s.guests) e = true →
        ∃ G, lastRowOf (step1AccOf env co false s).store.guests e.fst = some G ∧
          GoodRow e.snd G ∧
          G.convertedAt = (mapGet (existingGuestsMapOf s.guests) e.fst).bind Guest.convertedAt) ∧
      (s1Writes co (existingGuestsMapOf s.guests) e = false →
        lastRowOf (step1AccOf env co false s).store.guests e.fst =
          mapGet (existingGuestsMapOf s.guests) e.fst) := by
  unfold step1AccOf
  refine foldl_establish_pre (R := fun (a b : String × Product) => a.fst ≠ b.fst)
    (P := fun (e : String × Product) (σ : Step1Acc) =>
      (s1Writes co (existingGuestsMapOf s.guests) e = true →
        ∃ G, lastRowOf σ.store.guests e.fst = some G ∧ GoodRow e.snd G ∧
          G.convertedAt = (mapGet (existingGuestsMapOf s.guests) e.fst).bind Guest.convertedAt) ∧
      (s1Writes co (existingGuestsMapOf s.guests) e = false →
        lastRowOf σ.store.guests e.fst = mapGet (existingGuestsMapOf s.guests) e.fst))
    (W := fun (e : String × Product) (σ : Step1Acc) =>
      lastRowOf σ.store.guests e.fst = mapGet (existingGuestsMapOf s.guests) e.fst)
    (productsByMemberOf env co)
    { store := s, created := 0, updated := 0, toCreate := 0, toUpdate := 0 }
    (productsByMember_keysDistinct env co)
    (fun e _ => (egMap_eq_lastRow s.guests e.fst).symm)
    ?_ ?_ ?_
  · intro acc a b hr hw
    rw [processStep1_lastRow_other env co false _ acc a b.fst hr]
    exact hw
  · intro acc e hmem hw
    constructor
    · intro hwr
      unfold s1Writes at hwr
      cases hdc : determineCity co e.snd.homeClubId
          ((mapGet (existingGuestsMapOf s.guests) e.fst).bind Guest.city) with
      | none =>
        simp only [hdc] at hwr
        cases hwr
      | some c =>
        simp only [hdc] at hwr
        by_cases hcm : (getCountryFromCity c != some co) = true
        · rw [if_pos hcm] at hwr
          cases hwr
        · rw [if_neg hcm] at hwr
          have hcne : c.isEmpty = false := determineCity_nonempty co _ _ c hdc
          cases heg : mapGet (existingGuestsMapOf s.guests) e.fst with
          | none =>
            rw [processStep1_insert_eq env co _ acc e c hdc (by simpa using hcm) heg]
            dsimp only
            unfold guestInsert
            dsimp only
            rw [lastRowOf_append_single]
            rw [if_pos rfl]
            exact ⟨_, rfl, ⟨rfl, rfl, by simp [strTruthy, hcne]⟩, rfl⟩
          | some g =>
            simp only [heg] at hwr
            rw [processStep1_update_eq env co _ acc e c g hdc (by simpa using hcm) heg hwr]
            dsimp only
            rw [guestsUpdateBy_lastRow acc.store e.fst (fun gu => { gu with creditsLeft := e.snd.currentQuantity, packageSize := e.snd.initialQuantity, city := some c, updatedAt := env.now }) (fun _ => rfl) e.fst, if_pos rfl]
            rw [hw, heg]
            exact ⟨_, rfl, ⟨rfl, rfl, by simp [strTruthy, hcne]⟩, rfl⟩
    · intro hnw
      rw [processStep1_of_not_writes env co false _ acc e hnw]
      exact hw
  · intro acc a b hr hp
    have h2 := processStep1_lastRow_other env co false (existingGuestsMapOf s.guests) acc a
      b.fst (fun hh => hr hh.symm)
    constructor
    · intro hwr
      rcases hp.1 hwr with ⟨G, hG, hgood⟩
      exact ⟨G, by rw [h2]; exact hG, hgood⟩
    · intro hnw
      rw [h2]
      exact hp.2 hnw

theorem coreEqO_none_left (b : Option Guest) (h : coreEqO none b) : b = none := by
  cases b with
  | none => rfl
  | some gb => cases h

theorem coreEqO_some_left (a : Guest) (b : Option Guest) (h : coreEqO (some a) b) :
    ∃ b', b = some b' ∧ sameCore a b' := by
  cases b with
  | none => cases h
  | some gb => exact ⟨gb, rfl, h⟩

/-- A truthy `convertedAt` on a member's last guest row survives step 2. -/
theorem step2_fold_lastRow_converted (env : Env) (mm : List (String × ContractData))
    (s1cm : List (String × Option String)) (tm : List (String × Trial))
    (checks : List GuestCheck)
    (hcompat : ∀ g ∈ checks, strTruthy g.city = false →
      truthyOrNone ((mapGet s1cm g.memberId).getD none) = none)
    (hval : ∀ k cd, mapGet mm k = some cd → cd.startDate.isEmpty = false)
    (init : Step2Acc) (m : String)
    (h0 : strTruthy ((lastRowOf init.store.guests m).bind Guest.convertedAt) = true) :
    strTruthy ((lastRowOf (checks.foldl (processStep2 env mm s1cm tm false) init).store.guests
      m).bind Guest.convertedAt) = true := by
  refine foldl_preserve checks init (Q := fun (σ : Step2Acc) =>
    strTruthy ((lastRowOf σ.store.guests m).bind Guest.convertedAt) = true) ?_ h0
  intro σ g hg hq
  rw [processStep2_char env mm s1cm tm σ g (hcompat g hg)]
  cases hcd : mapGet mm g.memberId with
  | none => exact hq
  | some cd =>
    dsimp only
    have hrow := guestsUpdateBy_lastRow σ.store g.memberId
      (fun gu => { gu with convertedAt := some cd.startDate, updatedAt := env.now })
      (fun _ => rfl) m
    have hkey : strTruthy ((lastRowOf (guestsUpdateBy σ.store g.memberId
        (fun gu => { gu with convertedAt := some cd.startDate, updatedAt := env.now })).guests
        m).bind Guest.convertedAt) = true := by
      rw [hrow]
      by_cases hm : m = g.memberId
      · rw [if_pos hm]
        cases hlr : lastRowOf σ.store.guests m with
        | none =>
          rw [hlr] at hq
          cases hq
        | some G => simp [strTruthy, hval _ cd hcd]
      · rw [if_neg hm]
        exact hq
    split
    · rw [convInsert_guests]
      exact hkey
    · exact hkey

/-- `s1Writes` only inspects the core of the member's row. -/
theorem s1Writes_core_eq (co : String) (e : String × Product)
    (egA egB : List (String × Guest))
    (hrel : coreEqO (mapGet egA e.fst) (mapGet egB e.fst)) :
    s1Writes co egB e = s1Writes co egA e := by
  unfold s1Writes
  cases hA : mapGet egA e.fst with
  | none =>
    rw [hA] at hrel
    rw [coreEqO_none_left _ hrel]
  | some ga =>
    rw [hA] at hrel
    rcases coreEqO_some_left _ _ hrel with ⟨gb, hB, hcore⟩
    rw [hB]
    simp only [Option.some_bind]
    rw [hcore.2.2.1, hcore.2.1, hcore.2.2.2.2]

/-- The `step1CityMap` entry of a product member. -/
theorem mapGet_step1CityMap (env : Env) (co : String) (egMap : List (String × Guest))
    (e : String × Product) (hd : keysDistinct (productsByMemberOf env co))
    (hmem : e ∈ productsByMemberOf env co) :
    mapGet (step1CityMapOf env co egMap) e.fst =
      some (determineCity co e.snd.homeClubId ((mapGet egMap e.fst).bind Guest.city)) := by
  unfold step1CityMapOf
  have := mapGet_map_keyed
    (fun e' => determineCity co e'.snd.homeClubId ((mapGet egMap e'.fst).bind Guest.city))
    (productsByMemberOf env co) e.fst e.snd hd (by
      cases e
      exact hmem)
  exact this

theorem syncGuests_store_eq (env : Env) (cp co : String)
    (hcp : mapGet countryParamMap (strToLower cp) = some co)
    (hcfg : env.hasConfig co = true) (s : Store) :
    (syncGuests env cp false s).store =
      ((guestChecksOf env co false s).foldl
        (processStep2 env (buildMembersMap (env.members co))
          (step1CityMapOf env co (existingGuestsMapOf s.guests))
          (trialsByMemberIdOf (step1AccOf env co false s).store.trials) false)
        { store := (step1AccOf env co false s).store, converted := 0, convCreated := 0,
          toConvert := 0 }).store := by
  unfold syncGuests
  simp only [hcp]
  rw [if_neg (by simp [hcfg])]

theorem mem_checksFromStep1 (env : Env) (co : String) (egMap : List (String × Guest))
    (e : String × Product) (hmem : e ∈ productsByMemberOf env co)
    (hconv : (truthyOrNone ((mapGet egMap e.fst).bind Guest.convertedAt)).isNone = true) :
    ({ memberId := e.fst, creditsLeft := e.snd.currentQuantity,
       city := jsOrStr ((mapGet (step1CityMapOf env co egMap) e.fst).getD none)
         (jsOrStr ((mapGet egMap e.fst).bind Guest.city) none) } : GuestCheck) ∈
      checksFromStep1 env co egMap := by
  unfold checksFromStep1
  refine List.mem_filterMap.mpr ⟨e, hmem, ?_⟩
  dsimp only
  rw [if_pos hconv]

theorem mem_checksFromStep1_elim (env : Env) (co : String) (egMap : List (String × Guest))
    (g : GuestCheck) (h : g ∈ checksFromStep1 env co egMap) :
    ∃ e ∈ productsByMemberOf env co,
      (truthyOrNone ((mapGet egMap e.fst).bind Guest.convertedAt)).isNone = true ∧
      g = ({ memberId := e.fst, creditsLeft := e.snd.currentQuantity,
             city := jsOrStr ((mapGet (step1CityMapOf env co egMap) e.fst).getD none)
               (jsOrStr ((mapGet egMap e.fst).bind Guest.city) none) } : GuestCheck) := by
  unfold checksFromStep1 at h
  rcases List.mem_filterMap.mp h with ⟨e, he, hf⟩
  dsimp only at hf
  split at hf
  · rename_i hcv
    cases hf
    exact ⟨e, he, hcv, rfl⟩
  · cases hf

/-- A single run-2 step-2 check leaves the run-1 output store unchanged,
given the run-1 invariants. -/
theorem step2_noop_step (env : Env) (co : String) (s S1 : Store)
    (hd : keysDistinct (productsByMemberOf env co))
    (hout : ∀ e ∈ productsByMemberOf env co,
      (s1Writes co (existingGuestsMapOf s.guests) e = true →
        ∃ G, lastRowOf (step1AccOf env co false s).store.guests e.fst = some G ∧
          GoodRow e.snd G ∧
          G.convertedAt = (mapGet (existingGuestsMapOf s.guests) e.fst).bind Guest.convertedAt) ∧
      (s1Writes co (existingGuestsMapOf s.guests) e = false →
        lastRowOf (step1AccOf env co false s).store.guests e.fst =
          mapGet (existingGuestsMapOf s.guests) e.fst))
    (hcore : ∀ m, coreEqO (lastRowOf (step1AccOf env co false s).store.guests m)
      (lastRowOf S1.guests m))
    (hconv2 : ∀ g₁ ∈ guestChecksOf env co false s,
      ∀ cd, mapGet (buildMembersMap (env.members co)) g₁.memberId = some cd →
      ∀ G ∈ S1.guests, G.memberId = g₁.memberId → strTruthy G.convertedAt = true)
    (hpre : ∀ G ∈ S1.guests, ∃ G₁ ∈ (step1AccOf env co false s).store.guests,
      G₁.memberId = G.memberId ∧ G₁.city = G.city ∧
      (strTruthy G.convertedAt = false → G₁ = G))
    (hmatch : ∀ g₁ ∈ guestChecksOf env co false s,
      ∀ cd, mapGet (buildMembersMap (env.members co)) g₁.memberId = some cd →
      ∃ cv ∈ S1.conversions,
        guestConvMatches g₁.memberId
          (cfcOf (step1CityMapOf env co (existingGuestsMapOf s.guests)) g₁) cv = true)
    (hlastconv : ∀ m,
      strTruthy ((lastRowOf (step1AccOf env co false s).store.guests m).bind
        Guest.convertedAt) = true →
      strTruthy ((lastRowOf S1.guests m).bind Guest.convertedAt) = true)
    (hstep12 : step1AccOf env co false S1 =
      { store := S1, created := 0, updated := 0, toCreate := 0, toUpdate := 0 })
    (σ : Step2Acc) (g₂ : GuestCheck) (hg₂ : g₂ ∈ guestChecksOf env co false S1)
    (hσ : σ.store = S1) :
    (processStep2 env (buildMembersMap (env.members co))
      (step1CityMapOf env co (existingGuestsMapOf S1.guests))
      (trialsByMemberIdOf (step1AccOf env co false S1).store.trials) false σ g₂).store =
      S1 := by
  rw [processStep2_char env (buildMembersMap (env.members co))
    (step1CityMapOf env co (existingGuestsMapOf S1.guests))
    (trialsByMemberIdOf (step1AccOf env co false S1).store.trials) σ g₂
    (guestChecks_compat env co false S1 g₂ hg₂)]
  cases hcd : mapGet (buildMembersMap (env.members co)) g₂.memberId with
  | none => exact hσ
  | some cd =>
    have hg₂p := hg₂
    unfold guestChecksOf at hg₂p
    rw [hstep12] at hg₂p
    rcases List.mem_append.mp hg₂p with hstep | hdbm
    · rcases mem_checksFromStep1_elim env co (existingGuestsMapOf S1.guests) g₂ hstep
        with ⟨e, he, hcv0, hgeq⟩
      subst hgeq
      dsimp only
      have hnone : lastRowOf S1.guests e.fst = none := by
        cases hG' : lastRowOf S1.guests e.fst with
        | none => rfl
        | some G' =>
          exfalso
          rw [egMap_eq_lastRow, hG'] at hcv0
          rw [Option.isNone_iff_eq_none, truthyOrNone_eq_none_iff] at hcv0
          have hfalsy : strTruthy G'.convertedAt = false := by
            simpa using hcv0
          have hGmem := lastRowOf_mem _ _ _ hG'
          by_cases hck0 : strTruthy ((mapGet (existingGuestsMapOf s.guests) e.fst).bind
              Guest.convertedAt) = true
          · have hA1conv : strTruthy ((lastRowOf (step1AccOf env co false s).store.guests
                e.fst).bind Guest.convertedAt) = true := by
              rcases hout e he with ⟨hwr, hnw⟩
              by_cases hw0 : s1Writes co (existingGuestsMapOf s.guests) e = true
              · rcases hwr hw0 with ⟨G, hlast, _, hconvAt⟩
                rw [hlast, Option.some_bind, hconvAt]
                exact hck0
              · rw [hnw (by simpa using hw0)]
                exact hck0
            have hS1conv := hlastconv e.fst hA1conv
            rw [hG', Option.some_bind] at hS1conv
            exact Bool.noConfusion (hS1conv.symm.trans hfalsy)
          · have hck0' : (truthyOrNone ((mapGet (existingGuestsMapOf s.guests)
                e.fst).bind Guest.convertedAt)).isNone = true := by
              rw [Option.isNone_iff_eq_none, truthyOrNone_eq_none_iff]
              simpa using hck0
            have hg1mem :
                ({ memberId := e.fst, creditsLeft := e.snd.currentQuantity,
                   city := jsOrStr ((mapGet (step1CityMapOf env co
                       (existingGuestsMapOf s.guests)) e.fst).getD none)
                     (jsOrStr ((mapGet (existingGuestsMapOf s.guests) e.fst).bind
                       Guest.city) none) } : GuestCheck) ∈
                  guestChecksOf env co false s := by
              unfold guestChecksOf
              exact List.mem_append_left _
                (mem_checksFromStep1 env co (existingGuestsMapOf s.guests) e he hck0')
            have htru := hconv2 _ hg1mem cd hcd G' hGmem.1 hGmem.2
            exact Bool.noConfusion (htru.symm.trans hfalsy)
      have hA1none : lastRowOf (step1AccOf env co false s).store.guests e.fst = none := by
        have hc := hcore e.fst
        rw [hnone] at hc
        cases hA : lastRowOf (step1AccOf env co false s).store.guests e.fst with
        | none => rfl
        | some G =>
          rw [hA] at hc
          cases hc
      have h0none : mapGet (existingGuestsMapOf s.guests) e.fst = none := by
        rcases hout e he with ⟨hwr, hnw⟩
        by_cases hw0 : s1Writes co (existingGuestsMapOf s.guests) e = true
        · rcases hwr hw0 with ⟨G, hlast, _, _⟩
          rw [hlast] at hA1none
          cases hA1none
        · have h2 := hnw (by simpa using hw0)
          rw [hA1none] at h2
          exact h2.symm
      have hs1cm0 := mapGet_step1CityMap env co (existingGuestsMapOf s.guests) e hd he
      have hs1cm1 := mapGet_step1CityMap env co (existingGuestsMapOf S1.guests) e hd he
      rw [h0none] at hs1cm0
      rw [egMap_eq_lastRow, hnone] at hs1cm1
      have hid : guestsUpdateBy σ.store e.fst
          (fun gu => { gu with convertedAt := some cd.startDate, updatedAt := env.now }) =
          σ.store := by
        apply guestsUpdateBy_id
        intro G hG
        rw [hσ] at hG
        exact (lastRowOf_eq_none_iff _ _).mp hnone G hG
      have hck0' : (truthyOrNone ((mapGet (existingGuestsMapOf s.guests)
          e.fst).bind Guest.convertedAt)).isNone = true := by
        rw [h0none]
        rfl
      have hg1mem :
          ({ memberId := e.fst, creditsLeft := e.snd.currentQuantity,
             city := jsOrStr ((mapGet (step1CityMapOf env co
                 (existingGuestsMapOf s.guests)) e.fst).getD none)
               (jsOrStr ((mapGet (existingGuestsMapOf s.guests) e.fst).bind
                 Guest.city) none) } : GuestCheck) ∈
            guestChecksOf env co false s := by
        unfold guestChecksOf
        exact List.mem_append_left _
          (mem_checksFromStep1 env co (existingGuestsMapOf s.guests) e he hck0')
      rcases hmatch _ hg1mem cd hcd with ⟨cv, hcvm, hpred⟩
      have hcfc : cfcOf (step1CityMapOf env co (existingGuestsMapOf S1.guests))
          ({ memberId := e.fst, creditsLeft := e.snd.currentQuantity,
             city := jsOrStr ((mapGet (step1CityMapOf env co
                 (existingGuestsMapOf S1.guests)) e.fst).getD none)
               (jsOrStr ((mapGet (existingGuestsMapOf S1.guests) e.fst).bind
                 Guest.city) none) } : GuestCheck) =
          cfcOf (step1CityMapOf env co (existingGuestsMapOf s.guests))
          ({ memberId := e.fst, creditsLeft := e.snd.currentQuantity,
             city := jsOrStr ((mapGet (step1CityMapOf env co
                 (existingGuestsMapOf s.guests)) e.fst).getD none)
               (jsOrStr ((mapGet (existingGuestsMapOf s.guests) e.fst).bind
                 Guest.city) none) } : GuestCheck) := by
        unfold cfcOf
        dsimp only
        rw [hs1cm0, hs1cm1, h0none, egMap_eq_lastRow, hnone]
      rw [hid, hσ]
      split
      · rename_i hie
        exfalso
        rw [List.isEmpty_iff, List.filter_eq_nil_iff] at hie
        exact hie cv hcvm (by rw [hcfc]; exact hpred)
      · rfl
    · rcases List.mem_map.mp hdbm with ⟨G, hGf, hgeq⟩
      unfold activeGuestsFromDbOf at hGf
      rcases List.mem_filter.mp hGf with ⟨hGs1, hGcond⟩
      have hGfalsy : strTruthy G.convertedAt = false := by
        have h2 := hGcond
        simp only [Bool.and_eq_true] at h2
        simpa using h2.1.1.1
      rcases hpre G hGs1 with ⟨G₁, hG₁mem, _, _, himpl⟩
      have hGA1 : G ∈ (step1AccOf env co false s).store.guests := by
        have h2 := himpl hGfalsy
        rw [← h2]
        exact hG₁mem
      have hGf0 : G ∈ activeGuestsFromDbOf co
          ((productsByMemberOf env co).map Prod.fst)
          (step1AccOf env co false s).store.guests := by
        unfold activeGuestsFromDbOf
        exact List.mem_filter.mpr ⟨hGA1, hGcond⟩
      have hg1mem :
          ({ memberId := G.memberId, creditsLeft := G.creditsLeft,
             city := G.city } : GuestCheck) ∈ guestChecksOf env co false s := by
        unfold guestChecksOf
        exact List.mem_append_right _ (List.mem_map_of_mem _ hGf0)
      have htru := hconv2 _ hg1mem cd (by rw [← hgeq] at hcd; exact hcd) G hGs1 rfl
      exact Bool.noConfusion (htru.symm.trans hGfalsy)

theorem syncGuests_invalid_noop (env : Env) (cp : String) (s : Store)
    (h : mapGet countryParamMap (strToLower cp) = none ∨
      ∃ co, mapGet countryParamMap (strToLower cp) = some co ∧ env.hasConfig co = false) :
    (syncGuests env cp false s).store = s := by
  unfold syncGuests
  rcases h with h | ⟨co, hco, hcfg⟩
  · simp only [h]
  · simp only [hco]
    rw [if_pos (by simp [hcfg])]

/-- The guest handler is idempotent: an execute rerun on its own output
leaves the store unchanged. -/
theorem syncGuests_idem (env : Env) (cp : String) (s : Store) :
    (syncGuests env cp false (syncGuests env cp false s).store).store =
      (syncGuests env cp false s).store := by
  cases hcp : mapGet countryParamMap (strToLower cp) with
  | none => exact syncGuests_invalid_noop env cp _ (Or.inl hcp)
  | some co =>
    by_cases hcfg : env.hasConfig co = true
    case neg =>
      exact syncGuests_invalid_noop env cp _ (Or.inr ⟨co, hcp, by simpa using hcfg⟩)
    case pos =>
    have hs1 := syncGuests_store_eq env cp co hcp hcfg s
    have hcompat0 := guestChecks_compat env co false s
    have hval : ∀ k cd, mapGet (buildMembersMap (env.members co)) k = some cd →
        cd.startDate.isEmpty = false :=
      fun k cd h => (buildMembersMap_val (env.members co) k cd h).2
    have htype : ∀ k cd, mapGet (buildMembersMap (env.members co)) k = some cd →
        cd.membershipType = "flex" ∨ cd.membershipType = "loyalty" :=
      fun k cd h => (buildMembersMap_val (env.members co) k cd h).1
    have hd := productsByMember_keysDistinct env co
    have hout := step1_outcome env co s
    have hcore := step2_fold_core env (buildMembersMap (env.members co))
      (step1CityMapOf env co (existingGuestsMapOf s.guests))
      (trialsByMemberIdOf (step1AccOf env co false s).store.trials)
      (guestChecksOf env co false s) hcompat0
      { store := (step1AccOf env co false s).store, converted := 0, convCreated := 0,
        toConvert := 0 }
    have hconv2 := step2_fold_converted env (buildMembersMap (env.members co))
      (step1CityMapOf env co (existingGuestsMapOf s.guests))
      (trialsByMemberIdOf (step1AccOf env co false s).store.trials)
      (guestChecksOf env co false s) hcompat0 hval
      { store := (step1AccOf env co false s).store, converted := 0, convCreated := 0,
        toConvert := 0 }
    have hpre := step2_fold_preimage env (buildMembersMap (env.members co))
      (step1CityMapOf env co (existingGuestsMapOf s.guests))
      (trialsByMemberIdOf (step1AccOf env co false s).store.trials)
      (guestChecksOf env co false s) hcompat0 hval
      { store := (step1AccOf env co false s).store, converted := 0, convCreated := 0,
        toConvert := 0 }
    have hmatch := step2_fold_convmatch env (buildMembersMap (env.members co))
      (step1CityMapOf env co (existingGuestsMapOf s.guests))
      (trialsByMemberIdOf (step1AccOf env co false s).store.trials)
      (guestChecksOf env co false s) hcompat0 htype
      { store := (step1AccOf env co false s).store, converted := 0, convCreated := 0,
        toConvert := 0 }
    have hlastconv := step2_fold_lastRow_converted env (buildMembersMap (env.members co))
      (step1CityMapOf env co (existingGuestsMapOf s.guests))
      (trialsByMemberIdOf (step1AccOf env co false s).store.trials)
      (guestChecksOf env co false s) hcompat0 hval
      { store := (step1AccOf env co false s).store, converted := 0, convCreated := 0,
        toConvert := 0 }
    rw [hs1]
    have hR1 : ∀ e ∈ productsByMemberOf env co,
        s1Writes co (existingGuestsMapOf ((guestChecksOf env co false s).foldl
          (processStep2 env (buildMembersMap (env.members co))
            (step1CityMapOf env co (existingGuestsMapOf s.guests))
            (trialsByMemberIdOf (step1AccOf env co false s).store.trials) false)
          { store := (step1AccOf env co false s).store, converted := 0, convCreated := 0,
            toConvert := 0 }).store.guests) e = false := by
      intro e hmem
      rcases hout e hmem with ⟨hwr, hnw⟩
      have hc := hcore e.fst
      dsimp only at hc
      by_cases hw0 : s1Writes co (existingGuestsMapOf s.guests) e = true
      · rcases hwr hw0 with ⟨G, hlast, hgood, hconvAt⟩
        rw [hlast] at hc
        rcases coreEqO_some_left _ _ hc with ⟨G', hG', hcoreG⟩
        unfold s1Writes
        rw [egMap_eq_lastRow, hG']
        cases hdc : determineCity co e.snd.homeClubId ((some G').bind Guest.city) with
        | none => simp only [hdc]
        | some c =>
          simp only [hdc]
          by_cases hcm2 : (getCountryFromCity c != some co) = true
          · rw [if_pos hcm2]
          · rw [if_neg hcm2]
            have h1 : G'.creditsLeft = e.snd.currentQuantity := hcoreG.2.1.trans hgood.1
            have h2 : G'.packageSize = e.snd.initialQuantity := hcoreG.2.2.2.2.trans hgood.2.1
            have h3 : strTruthy G'.city = true := by
              rw [hcoreG.2.2.1]
              exact hgood.2.2
            simp [h1, h2, h3]
      · have hw0' : s1Writes co (existingGuestsMapOf s.guests) e = false := by simpa using hw0
        have hlast := hnw hw0'
        rw [hlast] at hc
        rw [egMap_eq_lastRow] at hc
        rw [s1Writes_core_eq co e (existingGuestsMapOf s.guests) _ (by
          rw [egMap_eq_lastRow, egMap_eq_lastRow]
          exact hc)]
        exact hw0'
    have hstep12 : step1AccOf env co false ((guestChecksOf env co false s).foldl
          (processStep2 env (buildMembersMap (env.members co))
            (step1CityMapOf env co (existingGuestsMapOf s.guests))
            (trialsByMemberIdOf (step1AccOf env co false s).store.trials) false)
          { store := (step1AccOf env co false s).store, converted := 0, convCreated := 0,
            toConvert := 0 }).store =
        { store := ((guestChecksOf env co false s).foldl
            (processStep2 env (buildMembersMap (env.members co))
              (step1CityMapOf env co (existingGuestsMapOf s.guests))
              (trialsByMemberIdOf (step1AccOf env co false s).store.trials) false)
            { store := (step1AccOf env co false s).store, converted := 0, convCreated := 0,
              toConvert := 0 }).store,
          created := 0, updated := 0, toCreate := 0, toUpdate := 0 } := by
      unfold step1AccOf
      exact foldl_fix _ _ _
        (fun e he => processStep1_of_not_writes env co false _ _ e (hR1 e he))
    rw [syncGuests_store_eq env cp co hcp hcfg]
    refine foldl_preserve _ _
      (Q := fun (σ : Step2Acc) => σ.store = ((guestChecksOf env co false s).foldl
        (processStep2 env (buildMembersMap (env.members co))
          (step1CityMapOf env co (existingGuestsMapOf s.guests))
          (trialsByMemberIdOf (step1AccOf env co false s).store.trials) false)
        { store := (step1AccOf env co false s).store, converted := 0, convCreated := 0,
          toConvert := 0 }).store) ?_ (by rw [hstep12])
    intro σ g₂ hg₂ hσ
    exact step2_noop_step env co s _ hd hout hcore hconv2 hpre hmatch hlastconv hstep12
      σ g₂ hg₂ hσ

/-- **C4** (amended): running the full sync in execute mode twice in
succession with no external change produces zero additional store writes on
the second run, provided the first run's eligible trial set is within the
999-candidate cap; the guest handler is unconditionally idempotent (the
trial handler defers candidates beyond the cap to the next run). -/
theorem syncAll_idempotent_within_cap (env : Env) (cp : String) (s : Store)
    (hcap : (trialsToCheckOf s).length ≤ maxTrials) :
    (syncAll env cp false (syncAll env cp false s).store).store =
      (syncAll env cp false s).store ∧
    ∀ s', (syncGuests env cp false (syncGuests env cp false s').store).store =
      (syncGuests env cp false s').store := by
  refine ⟨?_, fun s' => syncGuests_idem env cp s'⟩
  rw [syncAll_store_eq env cp false ((syncAll env cp false s).store)]
  rw [syncTrials_noop_after env cp s hcap]
  rw [syncAll_store_eq env cp false s]
  exact syncGuests_idem env cp ((syncTrials env false s).store)

/-- Witness for the cap-qualified rerun idempotency at a concrete input. -/
theorem syncAll_idempotent_within_cap_witness :
    (trialsToCheckOf emptyStore).length ≤ maxTrials ∧
    ((syncAll envManyDE "de" false (syncAll envManyDE "de" false emptyStore).store).store =
        (syncAll envManyDE "de" false emptyStore).store ∧
      ∀ s', (syncGuests envManyDE "de" false
          (syncGuests envManyDE "de" false s').store).store =
        (syncGuests envManyDE "de" false s').store) :=
  ⟨by decide, syncAll_idempotent_within_cap envManyDE "de" emptyStore (by decide)⟩

/-- **C1** (code-bug evidence): a candidate trial whose identity key carries
only a `course`-stage conversion record is filtered out before examination —
`syncTrials` returns the early "No trials to check" response and leaves the
store untouched even though the external platform reports an active
membership for that member, so the course record is never mutated into a
terminal one. -/
theorem syncTrials_course_stage_key_skipped :
    (syncTrials envTrialsDE false storeCourseStage).store = storeCourseStage ∧
    (syncTrials envTrialsDE false storeCourseStage).message = "No trials to check" ∧
    (syncTrials envTrialsDE false storeCourseStage).conversionsFound = 0 ∧
    mapGet (buildMembersMap (envTrialsDE.members "DE")) "7" =
      some { startDate := "2024-04-01", membershipType := "loyalty" } := by
  refine ⟨by decide, by decide, by decide, by decide⟩

/-- **C2** (counterexample): a Guest with `creditsLeft = 0`, no prior
`convertedAt` and no trial record converts with `source = "guest"` but
`hadCourseStep = false`, not `true` as the claim states; the `convertedAt`
update itself is as claimed. -/
theorem syncGuests_guest_conversion_flags :
    (syncGuests envGuestAT "at" false storeGuestVienna).store.conversions =
      [{ id := 0, memberId := "5", city := some "vienna", memberSince := "2024-05-10",
         membershipType := "flex", source := some "guest", hadCourseStep := false }] ∧
    (syncGuests envGuestAT "at" false storeGuestVienna).store.guests.map Guest.convertedAt =
      [some "2024-05-10"] := by
  refine ⟨by decide, by decide⟩

/-- **C3** (counterexample): two prospects share the raw id "5" in different
cities (a Berlin trial, a Vienna guest). Removing the Berlin prospect's trial
record changes the Vienna prospect's conversion record: with the trial
present the guest sync writes `source = "trial"`, `hadCourseStep = true`; with
it absent, `source = "guest"`, `hadCourseStep = false`. The guest handler's
had-a-trial lookup is keyed by raw member id alone. -/
theorem syncGuests_cross_city_trial_influence :
    (syncGuests envGuestAT "at" false storeCrossTenant).store.conversions.map
        (fun c => (c.source, c.hadCourseStep)) = [(some "trial", true)] ∧
    (syncGuests envGuestAT "at" false
        { storeCrossTenant with trials := [] }).store.conversions.map
        (fun c => (c.source, c.hadCourseStep)) = [(some "guest", false)] ∧
    (syncGuests envGuestAT "at" false storeCrossTenant).store.conversions ≠
      (syncGuests envGuestAT "at" false
        { storeCrossTenant with trials := [] }).store.conversions := by
  refine ⟨by decide, by decide, by decide⟩

/-- **C2** (amended): when the guest sync finds an active membership for a
not-yet-converted Guest (any credits left, no prior `convertedAt`), it sets
the Guest's `convertedAt` to the contract start date and inserts one
terminal conversion record; with no trial record for the member id the
record carries `source = "guest"` and `hadCourseStep = false`. -/
theorem guest_conversion_spec (env : Env) (cp country : String) (g : Guest) (c : String)
    (cd : ContractData) (s : Store)
    (hcp : mapGet countryParamMap (strToLower cp) = some country)
    (hcfg : env.hasConfig country = true)
    (hprod : env.products country = [])
    (hg : s.guests = [g])
    (hconv : g.convertedAt = none)
    (hcity : g.city = some c)
    (hcne : c.isEmpty = false)
    (hco : getCountryFromCity c = some country)
    (hmm : mapGet (buildMembersMap (env.members country)) g.memberId = some cd)
    (hnoc : s.conversions.filter (guestConvMatches g.memberId (some c)) = [])
    (htr : mapGet (trialsByMemberIdOf s.trials) g.memberId = none) :
    (syncGuests env cp false s).store.guests =
      [{ g with convertedAt := some cd.startDate, updatedAt := env.now }] ∧
    (syncGuests env cp false s).store.conversions =
      s.conversions ++
        [{ id := s.nextConvId, memberId := g.memberId, city := some c,
           memberSince := cd.startDate, membershipType := cd.membershipType,
           source := some "guest", hadCourseStep := false }] ∧
    (cd.membershipType = "flex" ∨ cd.membershipType = "loyalty") := by
  have hpbm : productsByMemberOf env country = [] := by
    unfold productsByMemberOf
    rw [hprod]
    rfl
  have hstep1 : step1AccOf env country false s =
      { store := s, created := 0, updated := 0, toCreate := 0, toUpdate := 0 } := by
    unfold step1AccOf
    rw [hpbm]
    rfl
  have hgc : strTruthy g.city = true := by
    rw [hcity]
    simp [strTruthy, hcne]
  have hchecks : guestChecksOf env country false s =
      [{ memberId := g.memberId, creditsLeft := g.creditsLeft, city := some c }] := by
    unfold guestChecksOf checksFromStep1 activeGuestsFromDbOf
    rw [hpbm, hstep1]
    simp only [List.filterMap_nil, List.map_nil, List.nil_append]
    rw [hg]
    simp only [List.filter_cons, List.filter_nil, hconv, hcity]
    rw [if_pos (by simp [strTruthy, hcne, hco])]
    simp only [List.map_cons, List.map_nil, hcity]
  have hgc2 : strTruthy (some c) = true := by simp [strTruthy, hcne]
  have htn : truthyOrNone (some c) = some c := by
    unfold truthyOrNone
    rw [if_pos hgc2]
  have hcfc : cfcOf (step1CityMapOf env country (existingGuestsMapOf s.guests))
      { memberId := g.memberId, creditsLeft := g.creditsLeft, city := some c } = some c := by
    unfold cfcOf
    dsimp only
    rw [if_pos hgc2]
  have hupd : guestsUpdateBy s g.memberId
      (fun gu => { gu with convertedAt := some cd.startDate, updatedAt := env.now }) =
      { s with guests := [{ g with convertedAt := some cd.startDate, updatedAt := env.now }] } := by
    unfold guestsUpdateBy
    rw [hg]
    simp
  refine ⟨?_, ?_, (buildMembersMap_val (env.members country) g.memberId cd hmm).1⟩ <;>
  · unfold syncGuests
    simp only [hcp]
    rw [if_neg (by simp [hcfg])]
    dsimp only
    rw [hchecks, hstep1, List.foldl_cons, List.foldl_nil]
    unfold processStep2
    dsimp only
    rw [hmm]
    dsimp only
    rw [if_neg (by decide)]
    rw [hupd]
    rw [if_pos hgc2]
    rw [hcfc]
    dsimp only
    rw [hnoc]
    rw [if_pos List.isEmpty_nil]
    rw [htr]
    simp only [Option.isSome_none, Bool.false_eq_true, if_false]
    rw [htn]
    rfl

theorem guest_conversion_spec_witness :
    (syncGuests envGuestAT "at" false storeGuestVienna).store.guests =
      [{ guestVienna with convertedAt := some "2024-05-10", updatedAt := envGuestAT.now }] ∧
    (syncGuests envGuestAT "at" false storeGuestVienna).store.conversions =
      storeGuestVienna.conversions ++
        [{ id := storeGuestVienna.nextConvId, memberId := guestVienna.memberId,
           city := some "vienna", memberSince := "2024-05-10", membershipType := "flex",
           source := some "guest", hadCourseStep := false }] ∧
    (("flex" : String) = "flex" ∨ ("flex" : String) = "loyalty") :=
  guest_conversion_spec envGuestAT "at" "AT" guestVienna "vienna" ⟨"2024-05-10", "flex"⟩
    storeGuestVienna (by decide) (by decide) rfl rfl rfl rfl (by decide) (by decide)
    (by decide) rfl rfl

/-- **C4** (counterexample): with 1000 eligible trials (999 for member 1,
one for member 2) and active memberships for both, the first execute run
caps processing at 999 candidates and inserts one conversion record; a
second run with no external change still writes: it inserts a second
record for the deferred member-2 trial, so the second run is not
write-free as the claim states. -/
theorem syncAll_cap_second_run_writes :
    maxTrials < (trialsToCheckOf storeManyDE).length ∧
    (syncAll envManyDE "de" false storeManyDE).store.conversions.length = 1 ∧
    (syncAll envManyDE "de" false
        (syncAll envManyDE "de" false storeManyDE).store).store.conversions.length = 2 := by
  refine ⟨storeMany_over_cap, by rw [syncAll_run1]; rfl, by rw [syncAll_run1, syncAll_run2]; rfl⟩

/-- **C3** (amended): every conversion-record write carries the prospect's
own identity. In the trial handler, each record after a run keeps the
(memberId, city) of a starting record or carries exactly the (memberId,
city) of a processed eligible trial; in the guest handler each record is
either pre-existing or carries the checked guest's member id and its
resolved `cityForConversion`. (The counterexample shows the guest handler's
had-a-trial lookup is nonetheless keyed by raw member id alone.) -/
theorem conversion_writes_keyed (env : Env) (dr : Bool) (cp : String) (s : Store) :
    (∀ cv' ∈ (syncTrials env dr s).store.conversions,
      (∃ cv ∈ s.conversions, cv'.memberId = cv.memberId ∧ cv'.city = cv.city) ∨
      (∃ t ∈ (trialsToCheckOf s).take maxTrials,
        t.memberId = some cv'.memberId ∧ cv'.city = some t.city)) ∧
    (∀ country, mapGet countryParamMap (strToLower cp) = some country →
      ∀ cv' ∈ (syncGuests env cp dr s).store.conversions,
        cv' ∈ s.conversions ∨
        ∃ g ∈ guestChecksOf env country dr s,
          cv'.memberId = g.memberId ∧
          cv'.city = truthyOrNone
            (cfcOf (step1CityMapOf env country (existingGuestsMapOf s.guests)) g)) := by
  refine ⟨syncTrials_conv_keyed env dr s, ?_⟩
  intro country hcp cv' hcv'
  unfold syncGuests at hcv'
  simp only [hcp] at hcv'
  by_cases hcfg : env.hasConfig country = true
  · rw [if_neg (by simp [hcfg])] at hcv'
    dsimp only at hcv'
    revert cv' hcv'
    refine foldl_preserve (guestChecksOf env country dr s)
      ({ store := (step1AccOf env country dr s).store, converted := 0, convCreated := 0,
         toConvert := 0 } : Step2Acc)
      (Q := fun σ => ∀ cv' ∈ σ.store.conversions,
        cv' ∈ s.conversions ∨
        ∃ g ∈ guestChecksOf env country dr s,
          cv'.memberId = g.memberId ∧
          cv'.city = truthyOrNone
            (cfcOf (step1CityMapOf env country (existingGuestsMapOf s.guests)) g)) ?_ ?_
    · intro σ g hg hq cv' hcv'
      rcases processStep2_conv_key env (buildMembersMap (env.members country))
        (step1CityMapOf env country (existingGuestsMapOf s.guests))
        (trialsByMemberIdOf (step1AccOf env country dr s).store.trials) dr σ g cv' hcv'
        with h | ⟨h1, h2, _⟩
      · exact hq cv' h
      · exact Or.inr ⟨g, hg, h1, h2⟩
    · intro cv' hcv'
      rw [(step1AccOf_frame env country dr s).1] at hcv'
      exact Or.inl hcv'
  · rw [if_pos (by simp [Bool.not_eq_true] at hcfg ⊢; exact hcfg)] at hcv'
    exact Or.inl hcv'

theorem conversion_writes_keyed_witness :
    mapGet countryParamMap (strToLower "at") = some "AT" ∧
    (∀ cv' ∈ (syncGuests envGuestAT "at" false storeGuestVienna).store.conversions,
      cv' ∈ storeGuestVienna.conversions ∨
      ∃ g ∈ guestChecksOf envGuestAT "AT" false storeGuestVienna,
        cv'.memberId = g.memberId ∧
        cv'.city = truthyOrNone
          (cfcOf (step1CityMapOf envGuestAT "AT"
            (existingGuestsMapOf storeGuestVienna.guests)) g)) :=
  ⟨by decide,
    (conversion_writes_keyed envGuestAT false "at" storeGuestVienna).2 "AT" (by decide)⟩

/-- **C5**: a candidate whose external facts include an active membership
never produces a `course` record: every conversion added by a trial-sync run
whose city's country has a `membersMap` entry for its member id carries a
terminal type (`flex`/`loyalty`), never `course` — in particular when both a
qualifying course purchase and an active membership exist. -/
theorem membership_beats_course (env : Env) (dr : Bool) (s : Store) :
    ∀ cv ∈ (syncTrials env dr s).store.conversions, cv ∉ s.conversions →
      ∀ city country cd, cv.city = some city → getCountryFromCity city = some country →
        mapGet (buildMembersMap (env.members country)) cv.memberId = some cd →
        (cv.membershipType = "flex" ∨ cv.membershipType = "loyalty") ∧
          cv.membershipType ≠ "course" := by
  intro cv hcv hnot city country cd h1 h2 h3
  rcases syncTrials_safe env dr s cv hcv with h | h
  · exact absurd h hnot
  · have hft := h city country cd h1 h2 h3
    refine ⟨hft, ?_⟩
    rcases hft with h4 | h4 <;> rw [h4] <;> decide

/-- The record the both-facts run is expected to create. -/
def convBothDE : Conversion :=
  { id := 0, memberId := "9", city := some "berlin", memberSince := "2024-04-01",
    membershipType := "flex", source := some "trial", hadCourseStep := false }

theorem membership_beats_course_witness :
    convBothDE ∈ (syncTrials envBothDE false storeBothDE).store.conversions ∧
    mapGet (buildPurchasesMap (envBothDE.products "DE") envBothDE.now) "9" =
      some { purchaseDate := "2024-02-01", productName := "Beginners Package" } ∧
    (convBothDE.membershipType = "flex" ∨ convBothDE.membershipType = "loyalty") ∧
    convBothDE.membershipType ≠ "course" :=
  ⟨by decide, by decide,
    (membership_beats_course envBothDE false storeBothDE convBothDE (by decide) (by decide)
      "berlin" "DE" ⟨"2024-04-01", "flex"⟩ (by decide) (by decide) (by decide)).1,
    (membership_beats_course envBothDE false storeBothDE convBothDE (by decide) (by decide)
      "berlin" "DE" ⟨"2024-04-01", "flex"⟩ (by decide) (by decide) (by decide)).2⟩

/-- **C7** (amended): resolver misses return `none` (`null`), never throw;
the run's error list contains exactly one message per tenant (country group)
without API configuration, and nothing for unresolvable candidates. -/
theorem resolver_soft_failures (env : Env) (dr : Bool) (s : Store) :
    (syncTrials env dr s).errors =
      ((groupByCountry ((trialsToCheckOf s).take maxTrials)).filter
        (fun e => !env.hasConfig e.fst)).map
        (fun e => "No API config found for country: " ++ e.fst) ∧
    getCountryFromCity "atlantis" = none ∧
    getCityFromHomeClubId "DE" (some 99) = none ∧
    getCityFromHomeClubId "XX" (some 1) = none ∧
    getCityFromHomeClubId "DE" none = none :=
  ⟨syncTrials_errors env dr s, by decide, by decide, by decide, by decide⟩

/-- **C8** (amended): at most 999 eligible candidates are processed; beyond
the cap the response reports `trialsChecked = 999` and `trialsRemaining =
eligible − 999`; within a nonempty cap, `trialsRemaining = 0`; with no
eligible candidate the early response omits both fields; and every write of
the run stems from one of the first 999 eligible trials. -/
theorem syncTrials_cap_spec (env : Env) (dr : Bool) (s : Store) :
    (maxTrials < (trialsToCheckOf s).length →
      (syncTrials env dr s).trialsChecked = some maxTrials ∧
      (syncTrials env dr s).trialsRemaining =
        some ((trialsToCheckOf s).length - maxTrials)) ∧
    (0 < (trialsToCheckOf s).length → (trialsToCheckOf s).length ≤ maxTrials →
      (syncTrials env dr s).trialsChecked = some (trialsToCheckOf s).length ∧
      (syncTrials env dr s).trialsRemaining = some 0) ∧
    ((trialsToCheckOf s).length = 0 →
      (syncTrials env dr s).trialsChecked = none ∧
      (syncTrials env dr s).trialsRemaining = none) ∧
    (∀ cv' ∈ (syncTrials env dr s).store.conversions,
      (∃ cv ∈ s.conversions, cv'.memberId = cv.memberId ∧ cv'.city = cv.city) ∨
      (∃ t ∈ (trialsToCheckOf s).take maxTrials,
        t.memberId = some cv'.memberId ∧ cv'.city = some t.city)) := by
  refine ⟨?_, ?_, ?_, syncTrials_conv_keyed env dr s⟩
  · intro h
    have hne : ¬(trialsToCheckOf s).isEmpty = true := by
      rw [List.isEmpty_iff]
      intro h0
      rw [h0] at h
      simp at h
    unfold syncTrials
    dsimp only
    rw [if_neg hne]
    refine ⟨?_, ?_⟩
    · dsimp only
      rw [List.length_take]
      rw [Nat.min_eq_left (Nat.le_of_lt h)]
    · rfl
  · intro h0 hle
    have hne : ¬(trialsToCheckOf s).isEmpty = true := by
      rw [List.isEmpty_iff]
      intro he
      rw [he] at h0
      simp at h0
    unfold syncTrials
    dsimp only
    rw [if_neg hne]
    refine ⟨?_, ?_⟩
    · dsimp only
      rw [List.length_take]
      rw [Nat.min_eq_right hle]
    · dsimp only
      rw [Nat.sub_eq_zero_of_le hle]
  · intro h
    have hne : (trialsToCheckOf s).isEmpty = true := by
      rw [List.isEmpty_iff]
      exact List.length_eq_zero.mp h
    unfold syncTrials
    dsimp only
    rw [if_pos hne]
    exact ⟨rfl, rfl⟩

theorem syncTrials_cap_spec_witness :
    0 < (trialsToCheckOf storeBothDE).length ∧
    (trialsToCheckOf storeBothDE).length ≤ maxTrials ∧
    (syncTrials envBothDE false storeBothDE).trialsChecked =
      some (trialsToCheckOf storeBothDE).length ∧
    (syncTrials envBothDE false storeBothDE).trialsRemaining = some 0 :=
  ⟨by decide, by decide,
    ((syncTrials_cap_spec envBothDE false storeBothDE).2.1 (by decide) (by decide)).1,
    ((syncTrials_cap_spec envBothDE false storeBothDE).2.1 (by decide) (by decide)).2⟩

/-- **C6**: a dry run (`execute=false`, i.e. `dryRun = true`) never mutates
the store, in the trial handler, the guest handler and the composed run. -/
theorem dryRun_store_preserved (env : Env) (cp : String) (s : Store) :
    (syncTrials env true s).store = s ∧
    (syncGuests env cp true s).store = s ∧
    (syncAll env cp true s).store = s :=
  ⟨syncTrials_dry env s, syncGuests_dry env cp s, syncAll_dry env cp s⟩

/-- **C7** (counterexample): a candidate trial with the unknown city
"atlantis" resolves to `none` (no exception) and is skipped, but produces no
entry in the run's error list — the list is empty — while the rest of the
batch is still processed (the Berlin trial converts). -/
theorem syncTrials_unresolved_candidate_not_reported :
    getCountryFromCity "atlantis" = none ∧
    (syncTrials envTrialsDE false storeUnknownCity).errors = [] ∧
    (syncTrials envTrialsDE false storeUnknownCity).trialsChecked = some 2 ∧
    (syncTrials envTrialsDE false storeUnknownCity).store.conversions.map
      Conversion.memberId = ["7"] := by
  refine ⟨by decide, by decide, by decide, by decide⟩

/-- **C8** (counterexample): when no trials need a check, the early return
omits the remainder field entirely (`none`), rather than reporting
`trialsRemaining = 0` as the claim states for every within-cap input. -/
theorem syncTrials_empty_omits_remaining :
    trialsToCheckOf emptyStore = [] ∧
    (syncTrials envTrialsDE false emptyStore).trialsRemaining = none ∧
    (syncTrials envTrialsDE false emptyStore).trialsChecked = none := by
  refine ⟨by decide, by decide, by decide⟩

/-- **C9**: `mapMembershipType` returns `"loyalty"` exactly when the
lowercased plan name contains `"loyalty"`, returns `"flex"` in every other
case, always lands in `{"loyalty", "flex"}`, and maps `"Loyalty Flex"` to
`"loyalty"`. -/
theorem mapMembershipType_keyword_spec (s : String) :
    (mapMembershipType s = "loyalty" ↔ strContainsSub (strToLower s) "loyalty" = true) ∧
    (strContainsSub (strToLower s) "loyalty" = false → mapMembershipType s = "flex") ∧
    (mapMembershipType s = "loyalty" ∨ mapMembershipType s = "flex") ∧
    mapMembershipType "Loyalty Flex" = "loyalty" := by
  refine ⟨?_, ?_, mapMembershipType_cases s, by decide⟩
  · rw [mapMembershipType_eq]
    by_cases h : strContainsSub (strToLower s) "loyalty" = true <;> simp [h]
  · intro h
    rw [mapMembershipType_eq, if_neg (by simp [h])]

theorem mapMembershipType_keyword_spec_witness :
    strContainsSub (strToLower "Premium 12") "loyalty" = false ∧
    mapMembershipType "Premium 12" = "flex" ∧
    mapMembershipType "" = "flex" :=
  ⟨by decide, (mapMembershipType_keyword_spec "Premium 12").2.1 (by decide),
    (mapMembershipType_keyword_spec "").2.1 (by decide)⟩

/-- **C10**: the route applies writes only when the `execute` query parameter
is exactly the string `"true"` (strict string equality); any other value
leaves `dryRun` set and the store untouched. -/
theorem handleRequest_execute_strict (env : Env) (tp cp ep : Option String) (s : Store) :
    (executeFlag ep = true ↔ ep = some "true") ∧
    (ep ≠ some "true" → (handleRequest env tp cp ep s).store = s) :=
  ⟨executeFlag_iff ep, handleRequest_not_execute env tp cp ep s⟩

theorem handleRequest_execute_strict_witness :
    (some "TRUE" : Option String) ≠ some "true" ∧
    (handleRequest envTrialsDE (some "trials") none (some "TRUE") storeCourseStage).store =
      storeCourseStage ∧
    (handleRequest envTrialsDE (some "trials") none none storeCourseStage).store =
      storeCourseStage :=
  ⟨by decide,
    (handleRequest_execute_strict envTrialsDE (some "trials") none (some "TRUE")
      storeCourseStage).2 (by decide),
    (handleRequest_execute_strict envTrialsDE (some "trials") none none
      storeCourseStage).2 (by decide)⟩

end Crm
